import Mathlib

/-!
Verification of the wlib fixed-block memory pool allocator
(`src/lib/wlib/memory/Memory.cpp`).

The Router, Registry, Bootstrap and Stats logic is translated from
`Memory.cpp`.  The `Allocator` bank classes (`Allocator.h`,
`StaticAllocatorPool.h`, `DynamicAllocatorPool.h`) are not part of the
sources, so the bank behaviour is modelled from the spec (section 4.B):
`allocate` returns null iff the bank is at capacity with no free blocks, so
a bank is summarised by its block size, capacity and `in_use` count.

Machine integers: `size32_type` is a 32-bit unsigned, `size_type` a 16-bit
unsigned (`Types.h`), `size_t` is taken as the 64-bit test host's, and
`sizeof(Allocator*)` is 4 (the spec's scenarios fix the word at 4 bytes).
Arithmetic is on `Nat` with explicit `% 2 ^ w` where the C code wraps.
-/

namespace WlibMemory

/-- Size in bytes of the `Allocator*` provenance prefix stored at the head
of every block (`required_extra_buffer = sizeof(Allocator*)` in
`Memory.cpp`); the spec's scenarios fix the machine word at 4 bytes. -/

def required_extra_buffer : Nat := 4

/-- Modelled from the spec: one fixed-block bank.  The `Allocator` /
`StaticAllocatorPool` / `DynamicAllocatorPool` classes are declared outside
the given sources; per spec 4.B a bank exposes `block_size`, `capacity` and
`in_use`, and `allocate` returns null iff the bank is at capacity with no
free blocks, so the free list is summarised by the `inUse` count. -/

structure Bank where
  blockSize : Nat
  capacity : Nat
  inUse : Nat
deriving Repr, DecidableEq

/-- Bookkeeping for one block handed out to the client: the provenance tag
(`bankIdx`, the index of the owning bank in the registry, standing for the
`Allocator*` written into the block prefix) and the bytes of the client
region, as a function from offset to byte value. -/

structure PtrInfo where
  bankIdx : Nat
  content : Nat → Nat

/-- The allocator's mutable state: the non-null prefix of the `_allocators`
array (slots at index `registry.length` and beyond are null), the live
client pointers, a fresh-pointer counter, and a count of `Allocator`
objects constructed by `memory_get_allocator` but neither inserted nor
deleted (the code has no `delete` on the failed-insert path). -/

structure MemState where
  registry : List Bank
  allocs : List (Nat × PtrInfo)
  nextPtr : Nat
  leaked : Nat

/-- Build-time configuration: pool mode (`STATIC_POOL` or `DYNAMIC_POOL`)
versus on-demand, the `MAX_ALLOCATORS` array length, and the capacity of an
on-demand `new Allocator(blockSize)` (modelled from the spec; that
constructor is declared outside the given sources). -/

structure Config where
  pool : Bool
  maxAllocators : Nat
  odCapacity : Nat

/-- One smearing step `k |= k >> s` of `nextHigher` in `Memory.cpp`. -/

def smear (x s : Nat) : Nat := x ||| (x >>> s)

/-- The or-cascade of `nextHigher` for a 64-bit `size_t`: shift amounts
1, 2, 4, 8, 16, 32. -/

def orCascade (k : Nat) : Nat :=
  smear (smear (smear (smear (smear (smear k 1) 2) 4) 8) 16) 32

/-- `nextHigher<size_t>` from `Memory.cpp`: `k--`, the or-cascade, then
`k + 1`, in 64-bit unsigned arithmetic. -/

def nextHigher (k : Nat) : Nat :=
  (orCascade ((k + (2 ^ 64 - 1)) % 2 ^ 64) + 1) % 2 ^ 64

/-- The `RestrictSize::restrictions` table from `Memory.cpp`. -/

def restrictions : Nat → Nat
  | 0 => 300
  | 1 => 400
  | _ => 500

/-- `RestrictSize::apply` from `Memory.cpp`: clamp the block sizes of the
powers of two 9, 10 and 11 to 300, 400 and 500. -/

def restrictSize (pow blockSize : Nat) : Nat :=
  if 9 ≤ pow ∧ pow < 9 + 3 then restrictions (pow - 9) else blockSize

/-- Smallest power-of-two exponent of a block:
`log2(required_extra_buffer) + 1 = 3` for a 4-byte word (`memory_init`). -/

def powStart : Nat := 3

/-- Banks created by `memory_init` in a pool configuration (the `insert`
template recursion): slot `i` gets block size
`restrictSize (powStart + i) (2 ^ (powStart + i))` and `NUM_BLOCKS`
blocks.  (`1 << curr_pow` is exact for the exponents used here.) -/

def bootBanks (numBlocks count : Nat) : List Bank :=
  (List.range count).map fun i =>
    ⟨restrictSize (powStart + i) (2 ^ (powStart + i)), numBlocks, 0⟩

/-- State after `memory_init` in a pool configuration. -/

def poolInit (maxAllocators numBlocks : Nat) : MemState :=
  ⟨bootBanks numBlocks maxAllocators, [], 0, 0⟩

/-- State after `memory_init` when no pool is configured: the `insert`
recursion assigns nothing, so the `_allocators` array stays all null. -/

def onDemandInit : MemState := ⟨[], [], 0, 0⟩

/-- Whether a bank satisfies the `find_allocator` match: `GetBlockSize() >=
size` in a pool configuration, `GetBlockSize() == size` otherwise. -/

def bankFits (pool : Bool) (b : Bank) (size : Nat) : Bool :=
  if pool then decide (size ≤ b.blockSize) else b.blockSize == size

/-- `find_allocator` from `Memory.cpp`: scan the non-null prefix of the
array in order and return the index of the first matching bank. -/

def find_allocator (pool : Bool) : List Bank → Nat → Option Nat
  | [], _ => none
  | b :: bs, size =>
    if bankFits pool b size then some 0
    else (find_allocator pool bs size).map (· + 1)

/-- Increment the `in_use` count of the bank at `idx` (a successful
`Allocate`, which pops the free list and bumps `GetNumAllocations`). -/

def incInUse : List Bank → Nat → List Bank
  | [], _ => []
  | b :: bs, 0 => { b with inUse := b.inUse + 1 } :: bs
  | b :: bs, i + 1 => b :: incInUse bs i

/-- Decrement the `in_use` count of the bank at `idx` (a `Deallocate`,
which pushes the block back onto the free list). -/

def decInUse : List Bank → Nat → List Bank
  | [], _ => []
  | b :: bs, 0 => { b with inUse := b.inUse - 1 } :: bs
  | b :: bs, i + 1 => b :: decInUse bs i

/-- Result of `memory_get_allocator`: the index of the chosen bank together
with the (possibly updated) state, or a null result. -/

inductive GetAlloc where
  | found (idx : Nat) (s : MemState)
  | noAlloc (s : MemState)

/-- Bucket rounding used when no pool is configured: the two explicit
overrides `(256, 396] -> 396` and `(512, 768] -> 768`, otherwise
`nextHigher<size_t>` truncated back into the 32-bit `blockSize`. -/

def roundNoPool (blockSize : Nat) : Nat :=
  if 256 < blockSize ∧ blockSize ≤ 396 then 396
  else if 512 < blockSize ∧ blockSize ≤ 768 then 768
  else nextHigher blockSize % 2 ^ 32

/-- `memory_get_allocator` from `Memory.cpp`: add the prefix size (32-bit
arithmetic), round the bucket when no pool is configured, look the bank up,
and in the no-pool configuration construct a missing bank and insert it at
the first null slot, leaving it orphaned when the array is full. -/

def memory_get_allocator (cfg : Config) (s : MemState) (size : Nat) : GetAlloc :=
  let blockSize0 := (size + required_extra_buffer) % 2 ^ 32
  let blockSize := if cfg.pool then blockSize0 else roundNoPool blockSize0
  match find_allocator cfg.pool s.registry blockSize with
  | some idx => .found idx s
  | none =>
    if cfg.pool then .noAlloc s
    else if s.registry.length < cfg.maxAllocators then
      .found s.registry.length
        { s with registry := s.registry ++ [⟨blockSize, cfg.odCapacity, 0⟩] }
    else
      .noAlloc { s with leaked := s.leaked + 1 }

/-- Result of `__memory_alloc`: a client pointer with the new state, a null
result, a null-pointer dereference (undefined behavior in the C code), or
exhausted recursion fuel. -/

inductive AllocResult where
  | ok (p : Nat) (s : MemState)
  | fail (s : MemState)
  | crash
  | outOfFuel

/-- `__memory_alloc` from `Memory.cpp`, with explicit fuel for the spill-up
recursion.  `Allocate` succeeds iff the bank is below capacity (spec 4.B);
on exhaustion the code reads `_allocators[MAX_ALLOCATORS - 1]->GetBlockSize()`
— a null dereference unless the array is full — and then either recurses
with `GetBlockSize() + 1` or returns null. -/

def memory_alloc (cfg : Config) : Nat → MemState → Nat → AllocResult
  | 0, _, _ => .outOfFuel
  | fuel + 1, s, size =>
    match memory_get_allocator cfg s size with
    | .noAlloc s' => .fail s'
    | .found idx s' =>
      match s'.registry[idx]? with
      | none => .crash
      | some bank =>
        if bank.inUse < bank.capacity then
          .ok s'.nextPtr
            { s' with
              registry := incInUse s'.registry idx,
              allocs := (s'.nextPtr, ⟨idx, fun _ => 0⟩) :: s'.allocs,
              nextPtr := s'.nextPtr + 1 }
        else
          match
            (if s'.registry.length = cfg.maxAllocators then s'.registry.getLast? else none) with
          | none => .crash
          | some lastB =>
            if bank.blockSize < lastB.blockSize then
              memory_alloc cfg fuel s' (bank.blockSize + 1)
            else .fail s'

/-- Look a live client pointer up in the allocation table. -/

def lookupPtr : List (Nat × PtrInfo) → Nat → Option PtrInfo
  | [], _ => none
  | (q, info) :: rest, p => if q = p then some info else lookupPtr rest p

/-- Remove a client pointer from the allocation table. -/

def removePtr (l : List (Nat × PtrInfo)) (p : Nat) : List (Nat × PtrInfo) :=
  l.filter fun e => e.1 != p

/-- Replace the stored content of pointer `p`. -/

def setContent : List (Nat × PtrInfo) → Nat → (Nat → Nat) → List (Nat × PtrInfo)
  | [], _, _ => []
  | (q, info) :: rest, p, c =>
    if q = p then (q, ⟨info.bankIdx, c⟩) :: rest
    else (q, info) :: setContent rest p c

/-- `__memory_free` from `Memory.cpp`: null is a no-op; otherwise the
block's prefix names the owning bank, which deallocates the raw block.
Freeing a pointer that is not live is undefined behavior (`none`). -/

def memory_free (s : MemState) (p : Option Nat) : Option MemState :=
  match p with
  | none => some s
  | some q =>
    match lookupPtr s.allocs q with
    | none => none
    | some info =>
      some { s with registry := decInUse s.registry info.bankIdx,
                    allocs := removePtr s.allocs q }

/-- Result of `__memory_realloc`. -/

inductive ReallocResult where
  | ok (p : Nat) (s : MemState)
  | nullRes (s : MemState)
  | crash
  | outOfFuel

/-- `__memory_realloc` from `Memory.cpp`: null old means plain `alloc`;
size zero frees and returns null; otherwise allocate, copy
`min(oldSize, size)` bytes where `oldSize` is
`GetBlockSize() - sizeof(Allocator*)` assigned into the 16-bit `size_type`,
free the old block, and return the new pointer (a null inner `alloc` is
returned with the old block untouched). -/

def memory_realloc (cfg : Config) (fuel : Nat) (s : MemState) (old : Option Nat)
    (size : Nat) : ReallocResult :=
  match old with
  | none =>
    match memory_alloc cfg fuel s size with
    | .ok p s' => .ok p s'
    | .fail s' => .nullRes s'
    | .crash => .crash
    | .outOfFuel => .outOfFuel
  | some op =>
    if size = 0 then
      match memory_free s (some op) with
      | none => .crash
      | some s' => .nullRes s'
    else
      match memory_alloc cfg fuel s size with
      | .outOfFuel => .outOfFuel
      | .crash => .crash
      | .fail s' => .nullRes s'
      | .ok np s' =>
        match lookupPtr s'.allocs op, lookupPtr s'.allocs np with
        | some oldInfo, some newInfo =>
          match s'.registry[oldInfo.bankIdx]? with
          | none => .crash
          | some oldBank =>
            let oldSize :=
              ((oldBank.blockSize + (2 ^ 32 - required_extra_buffer)) % 2 ^ 32) % 2 ^ 16
            let copyLen := min oldSize size
            let s'' := { s' with
              allocs := setContent s'.allocs np
                fun i => if i < copyLen then oldInfo.content i else newInfo.content i }
            match memory_free s'' (some op) with
            | none => .crash
            | some s''' => .ok np s'''
        | _, _ => .crash

/-- A client store of byte `v` at offset `i` through pointer `p` (spec
scenario S4 writes through the returned pointer before `realloc`). -/

def memory_write (s : MemState) (p i v : Nat) : Option MemState :=
  match lookupPtr s.allocs p with
  | none => none
  | some info =>
    some { s with
      allocs := setContent s.allocs p fun j => if j = i then v else info.content j }

/-- Byte at offset `i` of the live pointer `p`. -/

def contentAt (s : MemState) (p i : Nat) : Option Nat :=
  (lookupPtr s.allocs p).map fun info => info.content i

/-- Sum of `GetNumAllocations() * GetBlockSize()` over the given banks. -/

def usedSum (reg : List Bank) : Nat :=
  reg.foldl (fun acc b => acc + b.inUse * b.blockSize) 0

/-- Sum of `GetTotalBlocks() * GetBlockSize()` over the given banks. -/

def availSum (reg : List Bank) : Nat :=
  reg.foldl (fun acc b => acc + b.capacity * b.blockSize) 0

/-- `getTotalMemoryUsed` from `Memory.cpp`: the loop has no null check
(unlike `find_allocator`), so it dereferences null array slots — undefined
behavior, `none` — unless the `_allocators` array is full. -/

def getTotalMemoryUsed (cfg : Config) (s : MemState) : Option Nat :=
  if s.registry.length = cfg.maxAllocators then some (usedSum s.registry % 2 ^ 32)
  else none

/-- `getTotalMemoryAvailable` from `Memory.cpp`; same missing null check as
`getTotalMemoryUsed`. -/

def getTotalMemoryAvailable (cfg : Config) (s : MemState) : Option Nat :=
  if s.registry.length = cfg.maxAllocators then some (availSum s.registry % 2 ^ 32)
  else none

/-- A construction or destruction of the `MemoryInitDestroy` guard. -/

inductive InitOp where
  | ctor
  | dtor
deriving Repr, DecidableEq

/-- The static reference counter together with how many times `memory_init`
and `memory_destroy` have run. -/

structure RefState where
  count : Int
  inits : Nat
  destroys : Nat
deriving Repr, DecidableEq

/-- `MemoryInitDestroy`'s constructor and destructor from `Memory.cpp`:
`if (m_srefCount++ == 0) memory_init();` and
`if (--m_srefCount == 0) memory_destroy();`. -/

def refStep (st : RefState) : InitOp → RefState
  | .ctor =>
    if st.count = 0 then ⟨st.count + 1, st.inits + 1, st.destroys⟩
    else ⟨st.count + 1, st.inits, st.destroys⟩
  | .dtor =>
    if st.count - 1 = 0 then ⟨st.count - 1, st.inits, st.destroys + 1⟩
    else ⟨st.count - 1, st.inits, st.destroys⟩

/-- Run a sequence of guard constructions and destructions from the initial
zero value of the static `m_srefCount`. -/

def runOps (ops : List InitOp) : RefState :=
  ops.foldl refStep ⟨0, 0, 0⟩

/-- One public Router operation (`alloc`, `free` or `realloc`) that
completes without undefined behavior. -/

inductive Step (cfg : Config) (s : MemState) : MemState → Prop where
  | allocOk : ∀ fuel n p s', memory_alloc cfg fuel s n = .ok p s' → Step cfg s s'
  | allocFail : ∀ fuel n s', memory_alloc cfg fuel s n = .fail s' → Step cfg s s'
  | freeOp : ∀ p s', memory_free s p = some s' → Step cfg s s'
  | reallocOk : ∀ fuel old n p s',
      memory_realloc cfg fuel s old n = .ok p s' → Step cfg s s'
  | reallocNull : ∀ fuel old n s',
      memory_realloc cfg fuel s old n = .nullRes s' → Step cfg s s'

/-- States reachable from `init` by Router operations. -/

def Reach (cfg : Config) (init s : MemState) : Prop :=
  Relation.ReflTransGen (Step cfg) init s

/-- The spec's concrete static-pool configuration: `STATIC_POOL`,
`MAX_ALLOCATORS = 8`, `NUM_BLOCKS = 4`, word size 4. -/

def specCfg : Config := ⟨true, 8, 1⟩

/-- Bootstrap state of the spec's static-pool configuration: banks of
block sizes 8, 16, 32, 64, 128, 256, 300, 400 with 4 blocks each. -/

def specInit : MemState := poolInit 8 4

/-- The spec's wording for the power-of-two rounding: `B` is the next power
of two greater than or equal to `total`. -/

def IsNextPow2 (total B : Nat) : Prop :=
  (∃ j, B = 2 ^ j) ∧ total ≤ B ∧ ∀ j, total ≤ 2 ^ j → B ≤ 2 ^ j

/-- Window property of the or-cascade: bit `i` of `x` is set iff some bit
of `k` at distance less than `w` above `i` is set. -/

def Smeared (k x w : Nat) : Prop :=
  ∀ i, x.testBit i = true ↔ ∃ d, d < w ∧ k.testBit (i + d) = true

/-- Banks never hold out more blocks than their capacity. -/

def WF (reg : List Bank) : Prop := ∀ b ∈ reg, b.inUse ≤ b.capacity

/-- The structural data of a bank: block size and capacity. -/

def bankShape (b : Bank) : Nat × Nat := (b.blockSize, b.capacity)

/-- Registry transformations the Router can perform: bump an `in_use` count
below capacity, drop an `in_use` count, or (no-pool configuration) append a
freshly constructed bank whose block size was absent. -/

inductive RegEvo (cfg : Config) (reg : List Bank) : List Bank → Prop where
  | refl : RegEvo cfg reg reg
  | inc : ∀ reg' idx b, RegEvo cfg reg reg' → reg'[idx]? = some b →
      b.inUse < b.capacity → RegEvo cfg reg (incInUse reg' idx)
  | dec : ∀ reg' idx, RegEvo cfg reg reg' → RegEvo cfg reg (decInUse reg' idx)
  | append : ∀ reg' bsz, RegEvo cfg reg reg' →
      (∀ b ∈ reg', b.blockSize ≠ bsz) → cfg.pool = false →
      RegEvo cfg reg (reg' ++ [⟨bsz, cfg.odCapacity, 0⟩])

/-- Intermediate state for the C4 counterexample: after `alloc(100)` in the
on-demand configuration, one bank of block size 128 exists. -/

def c4s1 : MemState := ⟨[⟨128, 4, 1⟩], [(0, ⟨0, fun _ => 0⟩)], 1, 0⟩

/-- Second state for the C4 counterexample: a subsequent `alloc(1)` appends
a bank of block size 8 after the 128 bank. -/

def c4s2 : MemState :=
  ⟨[⟨128, 4, 1⟩, ⟨8, 4, 1⟩], [(1, ⟨1, fun _ => 0⟩), (0, ⟨0, fun _ => 0⟩)], 2, 0⟩

/-- Number of banks whose block size can serve a rounded request in a pool
configuration: the spill-up recursion's termination measure. -/

def fitCount (reg : List Bank) (size : Nat) : Nat :=
  (reg.filter fun b => decide (size ≤ b.blockSize)).length

/-- Registry of the spec's static pool with `k` blocks of the smallest bank
handed out. -/

def c8reg (k : Nat) : List Bank :=
  [⟨8, 4, k⟩, ⟨16, 4, 0⟩, ⟨32, 4, 0⟩, ⟨64, 4, 0⟩,
   ⟨128, 4, 0⟩, ⟨256, 4, 0⟩, ⟨300, 4, 0⟩, ⟨400, 4, 0⟩]

/-- States of the C8 counterexample run: after one to four `alloc(1)`
calls. -/

def c8s1 : MemState := ⟨c8reg 1, [(0, ⟨0, fun _ => 0⟩)], 1, 0⟩

/-- Second state of the C8 counterexample run. -/

def c8s2 : MemState :=
  ⟨c8reg 2, [(1, ⟨0, fun _ => 0⟩), (0, ⟨0, fun _ => 0⟩)], 2, 0⟩

/-- Third state of the C8 counterexample run. -/

def c8s3 : MemState :=
  ⟨c8reg 3, [(2, ⟨0, fun _ => 0⟩), (1, ⟨0, fun _ => 0⟩), (0, ⟨0, fun _ => 0⟩)], 3, 0⟩

/-- Fourth state of the C8 counterexample run: the 8-byte bank is
exhausted. -/

def c8s4 : MemState :=
  ⟨c8reg 4, [(3, ⟨0, fun _ => 0⟩), (2, ⟨0, fun _ => 0⟩), (1, ⟨0, fun _ => 0⟩),
    (0, ⟨0, fun _ => 0⟩)], 4, 0⟩

/-- Spill witness state: the 16-byte bank of the static pool exhausted. -/

def c1ExhState : MemState :=
  ⟨[⟨8, 4, 0⟩, ⟨16, 4, 4⟩, ⟨32, 4, 0⟩, ⟨64, 4, 0⟩,
    ⟨128, 4, 0⟩, ⟨256, 4, 0⟩, ⟨300, 4, 0⟩, ⟨400, 4, 0⟩], [], 4, 0⟩

/-- Spill witness state: the largest (400-byte) bank exhausted. -/

def c1TopState : MemState :=
  ⟨[⟨8, 4, 0⟩, ⟨16, 4, 0⟩, ⟨32, 4, 0⟩, ⟨64, 4, 0⟩,
    ⟨128, 4, 0⟩, ⟨256, 4, 0⟩, ⟨300, 4, 0⟩, ⟨400, 4, 4⟩], [], 4, 0⟩

/-- Allocation state for the C3 witness: one 10-byte allocation from the
16-byte bank of the static pool. -/

def c3w1 : MemState :=
  ⟨[⟨8, 4, 0⟩, ⟨16, 4, 1⟩, ⟨32, 4, 0⟩, ⟨64, 4, 0⟩,
    ⟨128, 4, 0⟩, ⟨256, 4, 0⟩, ⟨300, 4, 0⟩, ⟨400, 4, 0⟩],
   [(0, ⟨1, fun _ => 0⟩)], 1, 0⟩

/-- State after the C3 witness's inner `alloc(100)` from the 128-byte
bank. -/

def c3w2 : MemState :=
  ⟨[⟨8, 4, 0⟩, ⟨16, 4, 1⟩, ⟨32, 4, 0⟩, ⟨64, 4, 0⟩,
    ⟨128, 4, 1⟩, ⟨256, 4, 0⟩, ⟨300, 4, 0⟩, ⟨400, 4, 0⟩],
   [(1, ⟨4, fun _ => 0⟩), (0, ⟨1, fun _ => 0⟩)], 2, 0⟩

/-- First state of the C1 counterexample run in the on-demand
configuration: `alloc(100)` creates the 128-byte bank. -/
def c1od1 : MemState := ⟨[⟨128, 4, 1⟩], [(0, ⟨0, fun _ => 0⟩)], 1, 0⟩

/-- Second C1 counterexample state: `alloc(1)` appends the 8-byte bank
after the 128-byte bank. -/
def c1od2 : MemState :=
  ⟨[⟨128, 4, 1⟩, ⟨8, 4, 1⟩], [(1, ⟨1, fun _ => 0⟩), (0, ⟨0, fun _ => 0⟩)], 2, 0⟩

/-- Third C1 counterexample state. -/
def c1od3 : MemState :=
  ⟨[⟨128, 4, 1⟩, ⟨8, 4, 2⟩],
   [(2, ⟨1, fun _ => 0⟩), (1, ⟨1, fun _ => 0⟩), (0, ⟨0, fun _ => 0⟩)], 3, 0⟩

/-- Fourth C1 counterexample state. -/
def c1od4 : MemState :=
  ⟨[⟨128, 4, 1⟩, ⟨8, 4, 3⟩],
   [(3, ⟨1, fun _ => 0⟩), (2, ⟨1, fun _ => 0⟩), (1, ⟨1, fun _ => 0⟩),
    (0, ⟨0, fun _ => 0⟩)], 4, 0⟩

/-- Fifth C1 counterexample state: the non-largest 8-byte bank is
exhausted while the larger 128-byte bank still has free blocks. -/
def c1od5 : MemState :=
  ⟨[⟨128, 4, 1⟩, ⟨8, 4, 4⟩],
   [(4, ⟨1, fun _ => 0⟩), (3, ⟨1, fun _ => 0⟩), (2, ⟨1, fun _ => 0⟩),
    (1, ⟨1, fun _ => 0⟩), (0, ⟨0, fun _ => 0⟩)], 5, 0⟩

/-- Witness state for the null-dereference branch of the spill-up path: a
lone exhausted 8-byte bank in an on-demand Registry that is not full. -/
def c1NotFullState : MemState := ⟨[⟨8, 4, 4⟩], [], 4, 0⟩

/-- First state of the C10 counterexample run: `alloc(1)` in the
on-demand configuration with `MAX_ALLOCATORS = 2` creates the single
8-byte bank. -/
def c10od1 : MemState := ⟨[⟨8, 4, 1⟩], [(0, ⟨0, fun _ => 0⟩)], 1, 0⟩

/-- Second C10 counterexample state. -/
def c10od2 : MemState :=
  ⟨[⟨8, 4, 2⟩], [(1, ⟨0, fun _ => 0⟩), (0, ⟨0, fun _ => 0⟩)], 2, 0⟩

/-- Third C10 counterexample state. -/
def c10od3 : MemState :=
  ⟨[⟨8, 4, 3⟩],
   [(2, ⟨0, fun _ => 0⟩), (1, ⟨0, fun _ => 0⟩), (0, ⟨0, fun _ => 0⟩)], 3, 0⟩

/-- Fourth C10 counterexample state: the lone 8-byte bank is exhausted and
the Registry is not full, so the last `_allocators` slot is null. -/
def c10od4 : MemState :=
  ⟨[⟨8, 4, 4⟩],
   [(3, ⟨0, fun _ => 0⟩), (2, ⟨0, fun _ => 0⟩), (1, ⟨0, fun _ => 0⟩),
    (0, ⟨0, fun _ => 0⟩)], 4, 0⟩

theorem testBit_smear (x s i : Nat) :
    (smear x s).testBit i = (x.testBit i || x.testBit (i + s)) := by
  simp [smear, Nat.testBit_or, Nat.testBit_shiftRight, Nat.add_comm]

theorem smeared_refl (k : Nat) : Smeared k k 1 := by
  intro i
  constructor
  · intro h; exact ⟨0, Nat.zero_lt_one, by simpa using h⟩
  · rintro ⟨d, hd, h⟩
    interval_cases d
    simpa using h

theorem smeared_smear {k x w : Nat} (h : Smeared k x w) :
    Smeared k (smear x w) (2 * w) := by
  intro i
  rw [testBit_smear, Bool.or_eq_true]
  constructor
  · intro hb
    rcases hb with hb | hb
    · rcases (h i).mp hb with ⟨d, hd, hk⟩
      exact ⟨d, by omega, hk⟩
    · rcases (h (i + w)).mp hb with ⟨d, hd, hk⟩
      exact ⟨w + d, by omega, by rwa [← Nat.add_assoc]⟩
  · rintro ⟨d, hd, hk⟩
    rcases Nat.lt_or_ge d w with hdw | hdw
    · exact Or.inl ((h i).mpr ⟨d, hdw, hk⟩)
    · refine Or.inr ((h (i + w)).mpr ⟨d - w, by omega, ?_⟩)
      have : i + w + (d - w) = i + d := by omega
      rwa [this]

theorem smeared_orCascade (k : Nat) : Smeared k (orCascade k) 64 := by
  have h1 := smeared_refl k
  have h2 := smeared_smear h1
  have h4 := smeared_smear h2
  have h8 := smeared_smear h4
  have h16 := smeared_smear h8
  have h32 := smeared_smear h16
  have h64 := smeared_smear h32
  simpa [orCascade] using h64

theorem lt_two_pow_of_high_bits :
    ∀ (i k : Nat), (∀ j, i ≤ j → k.testBit j = false) → k < 2 ^ i := by
  intro i
  induction i with
  | zero =>
    intro k h
    have hk : k = 0 := by
      apply Nat.eq_of_testBit_eq
      intro j
      simp [h j (Nat.zero_le j)]
    simp [hk]
  | succ n ih =>
    intro k h
    have hhalf : k / 2 < 2 ^ n := by
      apply ih
      intro j hj
      rw [Nat.testBit_div_two]
      exact h (j + 1) (by omega)
    have : k < 2 * (k / 2) + 2 := by omega
    calc k < 2 * (k / 2) + 2 := this
    _ ≤ 2 * (2 ^ n - 1) + 2 := by omega
    _ ≤ 2 ^ (n + 1) := by
        have : 1 ≤ 2 ^ n := Nat.one_le_two_pow
        rw [Nat.pow_succ]
        omega

theorem orCascade_eq {k : Nat} (hk : k < 2 ^ 64) :
    orCascade k = 2 ^ k.size - 1 := by
  apply Nat.eq_of_testBit_eq
  intro i
  have hiff : (orCascade k).testBit i = true ↔ i < k.size := by
    constructor
    · intro hb
      rcases (smeared_orCascade k i).mp hb with ⟨d, _, hbit⟩
      have h2 : 2 ^ (i + d) ≤ k := Nat.testBit_implies_ge hbit
      have : i + d < k.size := Nat.lt_size.mpr h2
      omega
    · intro hlt
      apply (smeared_orCascade k i).mpr
      by_contra hnone
      push_neg at hnone
      have hall : ∀ j, i ≤ j → k.testBit j = false := by
        intro j hj
        rcases Nat.lt_or_ge j (i + 64) with hj64 | hj64
        · have hd := hnone (j - i) (by omega)
          have hji : i + (j - i) = j := by omega
          rw [hji] at hd
          simpa using hd
        · apply Nat.testBit_lt_two_pow
          calc k < 2 ^ 64 := hk
          _ ≤ 2 ^ j := Nat.pow_le_pow_right (by omega) (by omega)
      have hk2 := lt_two_pow_of_high_bits i k hall
      have : k.size ≤ i := Nat.size_le.mpr hk2
      omega
  rw [Nat.testBit_two_pow_sub_one]
  cases hb : (orCascade k).testBit i with
  | false =>
    have hn : ¬ i < k.size := fun hlt => by simp [hiff.mpr hlt] at hb
    simp [hn]
  | true =>
    have := hiff.mp hb
    simp [this]

theorem nextHigher_eq {k : Nat} (h1 : 1 ≤ k) (h2 : k ≤ 2 ^ 63) :
    nextHigher k = 2 ^ (k - 1).size := by
  have hk1 : (k + (2 ^ 64 - 1)) % 2 ^ 64 = k - 1 := by
    have : k + (2 ^ 64 - 1) = (k - 1) + 2 ^ 64 := by omega
    rw [this, Nat.add_mod_right]
    exact Nat.mod_eq_of_lt (by omega)
  have hsize : (k - 1).size ≤ 63 := Nat.size_le.mpr (by omega)
  have hcasc := orCascade_eq (show k - 1 < 2 ^ 64 by omega)
  rw [nextHigher, hk1, hcasc]
  have hpow : 2 ^ (k - 1).size ≤ 2 ^ 63 := Nat.pow_le_pow_right (by omega) hsize
  have h1le : 1 ≤ 2 ^ (k - 1).size := Nat.one_le_two_pow
  rw [Nat.sub_add_cancel h1le]
  exact Nat.mod_eq_of_lt (by norm_num at hpow ⊢; omega)

theorem isNextPow2_nextHigher {k : Nat} (h1 : 1 ≤ k) (h2 : k ≤ 2 ^ 31) :
    IsNextPow2 k (nextHigher k % 2 ^ 32) := by
  have heq := nextHigher_eq h1 (le_trans h2 (by norm_num))
  have hsize : (k - 1).size ≤ 31 := Nat.size_le.mpr (by omega)
  have hpow : 2 ^ (k - 1).size ≤ 2 ^ 31 := Nat.pow_le_pow_right (by omega) hsize
  have hmod : nextHigher k % 2 ^ 32 = 2 ^ (k - 1).size := by
    rw [heq]
    exact Nat.mod_eq_of_lt (by norm_num at hpow ⊢; omega)
  rw [hmod]
  refine ⟨⟨(k - 1).size, rfl⟩, ?_, ?_⟩
  · have := Nat.lt_size_self (k - 1)
    omega
  · intro j hj
    apply Nat.pow_le_pow_right (by omega)
    exact Nat.size_le.mpr (by omega)

theorem incInUse_map_shape : ∀ (reg : List Bank) (i : Nat),
    (incInUse reg i).map bankShape = reg.map bankShape
  | [], _ => rfl
  | _ :: bs, 0 => by simp [incInUse, bankShape]
  | _ :: bs, i + 1 => by simp [incInUse, incInUse_map_shape bs i]

theorem decInUse_map_shape : ∀ (reg : List Bank) (i : Nat),
    (decInUse reg i).map bankShape = reg.map bankShape
  | [], _ => rfl
  | _ :: bs, 0 => by simp [decInUse, bankShape]
  | _ :: bs, i + 1 => by simp [decInUse, decInUse_map_shape bs i]

theorem map_blockSize_of_map_shape {reg reg' : List Bank}
    (h : reg.map bankShape = reg'.map bankShape) :
    reg.map Bank.blockSize = reg'.map Bank.blockSize := by
  have h1 : (reg.map bankShape).map Prod.fst = (reg'.map bankShape).map Prod.fst := by
    rw [h]
  simpa [List.map_map, bankShape, Function.comp] using h1

theorem length_of_map_shape {reg reg' : List Bank}
    (h : reg.map bankShape = reg'.map bankShape) : reg.length = reg'.length := by
  have := congrArg List.length h
  simpa using this

theorem incInUse_WF {reg : List Bank} {i : Nat} {b0 : Bank}
    (hwf : WF reg) (hb : reg[i]? = some b0) (hlt : b0.inUse < b0.capacity) :
    WF (incInUse reg i) := by
  induction reg generalizing i with
  | nil => simpa [incInUse] using hwf
  | cons b bs ih =>
    cases i with
    | zero =>
      simp only [List.getElem?_cons_zero, Option.some_inj] at hb
      subst hb
      intro x hx
      rcases List.mem_cons.mp hx with hx | hx
      · subst hx; simpa [incInUse] using hlt
      · exact hwf x (List.mem_cons_of_mem _ hx)
    | succ n =>
      simp only [List.getElem?_cons_succ] at hb
      intro x hx
      rcases List.mem_cons.mp hx with hx | hx
      · subst hx; exact hwf x (List.mem_cons_self _ _)
      · exact ih (fun y hy => hwf y (List.mem_cons_of_mem _ hy)) hb x hx

theorem decInUse_WF {reg : List Bank} (hwf : WF reg) (i : Nat) :
    WF (decInUse reg i) := by
  induction reg generalizing i with
  | nil => simpa [decInUse] using hwf
  | cons b bs ih =>
    cases i with
    | zero =>
      intro x hx
      rcases List.mem_cons.mp hx with hx | hx
      · subst hx
        have := hwf b (List.mem_cons_self _ _)
        simp only []
        omega
      · exact hwf x (List.mem_cons_of_mem _ hx)
    | succ n =>
      intro x hx
      rcases List.mem_cons.mp hx with hx | hx
      · subst hx; exact hwf x (List.mem_cons_self _ _)
      · exact ih (fun y hy => hwf y (List.mem_cons_of_mem _ hy)) n x hx

theorem find_allocator_some : ∀ {pool : Bool} {reg : List Bank} {size idx : Nat},
    find_allocator pool reg size = some idx →
    ∃ b, reg[idx]? = some b ∧ bankFits pool b size = true := by
  intro pool reg
  induction reg with
  | nil => intro size idx h; simp [find_allocator] at h
  | cons b bs ih =>
    intro size idx h
    simp only [find_allocator] at h
    split at h
    · next hfit =>
      injection h with h
      subst h
      exact ⟨b, by simp, hfit⟩
    · next hfit =>
      rcases Option.map_eq_some'.mp h with ⟨j, hj, hidx⟩
      rcases ih hj with ⟨b', hb', hfits⟩
      subst hidx
      exact ⟨b', by simpa using hb', hfits⟩

theorem find_allocator_none : ∀ {pool : Bool} {reg : List Bank} {size : Nat},
    find_allocator pool reg size = none →
    ∀ b ∈ reg, bankFits pool b size = false := by
  intro pool reg
  induction reg with
  | nil => intro size _ b hb; simp at hb
  | cons b bs ih =>
    intro size h x hx
    simp only [find_allocator] at h
    split at h
    · exact absurd h (by simp)
    · next hfit =>
      rcases List.mem_cons.mp hx with hx | hx
      · subst hx; simpa using hfit
      · exact ih (by simpa using h) x hx

theorem regEvo_trans {cfg : Config} {a b c : List Bank}
    (h1 : RegEvo cfg a b) (h2 : RegEvo cfg b c) : RegEvo cfg a c := by
  induction h2 with
  | refl => exact h1
  | inc reg' idx bk hevo hb hlt ih => exact RegEvo.inc _ idx bk ih hb hlt
  | dec reg' idx hevo ih => exact RegEvo.dec _ idx ih
  | append reg' bsz hevo habs hpool ih => exact RegEvo.append _ bsz ih habs hpool

theorem regEvo_pool_shape {cfg : Config} (hp : cfg.pool = true) {reg reg' : List Bank}
    (h : RegEvo cfg reg reg') : reg'.map bankShape = reg.map bankShape := by
  induction h with
  | refl => rfl
  | inc r' idx bk hevo hb hlt ih => rw [incInUse_map_shape, ih]
  | dec r' idx hevo ih => rw [decInUse_map_shape, ih]
  | append r' bsz hevo habs hpool ih => rw [hpool] at hp; exact absurd hp (by simp)

theorem regEvo_WF {cfg : Config} {reg reg' : List Bank}
    (h : RegEvo cfg reg reg') (hwf : WF reg) : WF reg' := by
  induction h with
  | refl => exact hwf
  | inc r' idx bk hevo hb hlt ih => exact incInUse_WF ih hb hlt
  | dec r' idx hevo ih => exact decInUse_WF ih idx
  | append r' bsz hevo habs hpool ih =>
    intro x hx
    rcases List.mem_append.mp hx with hx | hx
    · exact ih x hx
    · simp only [List.mem_singleton] at hx
      subst hx
      exact Nat.zero_le _

theorem regEvo_nodup {cfg : Config} {reg reg' : List Bank}
    (h : RegEvo cfg reg reg')
    (hnd : (reg.map Bank.blockSize).Nodup) : (reg'.map Bank.blockSize).Nodup := by
  induction h with
  | refl => exact hnd
  | inc r' idx bk hevo hb hlt ih =>
    have := map_blockSize_of_map_shape (incInUse_map_shape r' idx)
    rw [this]
    exact ih
  | dec r' idx hevo ih =>
    have := map_blockSize_of_map_shape (decInUse_map_shape r' idx)
    rw [this]
    exact ih
  | append r' bsz hevo habs hpool ih =>
    rw [List.map_append]
    simp only [List.map_cons, List.map_nil]
    rw [List.nodup_append]
    refine ⟨ih, List.nodup_singleton _, ?_⟩
    intro x hx
    rcases List.mem_map.mp hx with ⟨b, hb, hbs⟩
    simp only [List.mem_singleton]
    intro hcon
    exact habs b hb (by rw [hbs, hcon])

theorem ga_noAlloc_eq {cfg : Config} {s : MemState} {size : Nat} {s' : MemState}
    (h : memory_get_allocator cfg s size = .noAlloc s') :
    s'.registry = s.registry ∧ s'.allocs = s.allocs ∧ s'.nextPtr = s.nextPtr := by
  simp only [memory_get_allocator] at h
  cases hf : find_allocator cfg.pool s.registry
      (if cfg.pool then (size + required_extra_buffer) % 2 ^ 32
       else roundNoPool ((size + required_extra_buffer) % 2 ^ 32)) with
  | some idx =>
    simp only [hf] at h
    exact GetAlloc.noConfusion h
  | none =>
    simp only [hf] at h
    split at h
    · injection h with h
      subst h
      exact ⟨rfl, rfl, rfl⟩
    · split at h
      · exact GetAlloc.noConfusion h
      · injection h with h
        subst h
        exact ⟨rfl, rfl, rfl⟩

theorem ga_found_eq {cfg : Config} {s : MemState} {size idx : Nat} {s' : MemState}
    (h : memory_get_allocator cfg s size = .found idx s') :
    s'.allocs = s.allocs ∧ s'.nextPtr = s.nextPtr ∧
    (s' = s ∨
      (cfg.pool = false ∧ idx = s.registry.length ∧
        ∃ bsz, (∀ b ∈ s.registry, b.blockSize ≠ bsz) ∧
          s'.registry = s.registry ++ [⟨bsz, cfg.odCapacity, 0⟩] ∧
          s'.registry[idx]? = some ⟨bsz, cfg.odCapacity, 0⟩)) := by
  simp only [memory_get_allocator] at h
  cases hf : find_allocator cfg.pool s.registry
      (if cfg.pool then (size + required_extra_buffer) % 2 ^ 32
       else roundNoPool ((size + required_extra_buffer) % 2 ^ 32)) with
  | some j =>
    simp only [hf] at h
    injection h with h1 h2
    subst h1
    subst h2
    exact ⟨rfl, rfl, Or.inl rfl⟩
  | none =>
    simp only [hf] at h
    split at h
    · exact GetAlloc.noConfusion h
    · next hpool =>
      split at h
      · next hlen =>
        injection h with h1 h2
        subst h1
        subst h2
        have hp : cfg.pool = false := by simpa using hpool
        rw [hp] at hf
        simp only [Bool.false_eq_true, if_false] at hf
        refine ⟨rfl, rfl, Or.inr ⟨hp, rfl,
          roundNoPool ((size + required_extra_buffer) % 2 ^ 32), ?_, rfl, ?_⟩⟩
        · intro b hb
          have := find_allocator_none hf b hb
          simpa [bankFits] using this
        · simp
      · exact GetAlloc.noConfusion h

theorem alloc_evo {cfg : Config} : ∀ (fuel : Nat) (s : MemState) (size : Nat),
    (∀ p s', memory_alloc cfg fuel s size = .ok p s' →
      RegEvo cfg s.registry s'.registry ∧ p = s.nextPtr ∧
      s'.nextPtr = s.nextPtr + 1 ∧
      ∃ idx, s'.allocs = (s.nextPtr, ⟨idx, fun _ => 0⟩) :: s.allocs) ∧
    (∀ s', memory_alloc cfg fuel s size = .fail s' →
      RegEvo cfg s.registry s'.registry ∧ s'.allocs = s.allocs ∧
      s'.nextPtr = s.nextPtr) := by
  intro fuel
  induction fuel with
  | zero =>
    intro s size
    exact ⟨fun p s' h => AllocResult.noConfusion h,
           fun s' h => AllocResult.noConfusion h⟩
  | succ n ih =>
    intro s size
    have hmain : ∀ r, memory_alloc cfg (n + 1) s size = r →
        (∀ p s', r = .ok p s' →
          RegEvo cfg s.registry s'.registry ∧ p = s.nextPtr ∧
          s'.nextPtr = s.nextPtr + 1 ∧
          ∃ idx, s'.allocs = (s.nextPtr, ⟨idx, fun _ => 0⟩) :: s.allocs) ∧
        (∀ s', r = .fail s' →
          RegEvo cfg s.registry s'.registry ∧ s'.allocs = s.allocs ∧
          s'.nextPtr = s.nextPtr) := by
      intro r h
      simp only [memory_alloc] at h
      cases hga : memory_get_allocator cfg s size with
      | noAlloc s1 =>
        simp only [hga] at h
        rcases ga_noAlloc_eq hga with ⟨hreg, hall, hnp⟩
        subst h
        refine ⟨fun p s' h => AllocResult.noConfusion h, fun s' h => ?_⟩
        injection h with h
        subst h
        rw [hreg, hall, hnp]
        exact ⟨RegEvo.refl, rfl, rfl⟩
      | found idx s1 =>
        simp only [hga] at h
        rcases ga_found_eq hga with ⟨hall, hnp, hcase⟩
        have hevo1 : RegEvo cfg s.registry s1.registry := by
          rcases hcase with hc | ⟨hp, hidx, bsz, habs, hreg, hgb⟩
          · rw [hc]; exact RegEvo.refl
          · rw [hreg]; exact RegEvo.append _ bsz RegEvo.refl habs hp
        cases hbank : s1.registry[idx]? with
        | none =>
          simp only [hbank] at h
          subst h
          exact ⟨fun p s' h => AllocResult.noConfusion h,
                 fun s' h => AllocResult.noConfusion h⟩
        | some bank =>
          simp only [hbank] at h
          by_cases hlt : bank.inUse < bank.capacity
          · rw [if_pos hlt] at h
            subst h
            refine ⟨fun p s' hok => ?_, fun s' hf => AllocResult.noConfusion hf⟩
            injection hok with hp1 hs1
            subst hp1
            subst hs1
            refine ⟨RegEvo.inc _ idx bank hevo1 hbank hlt, by rw [hnp], by simp [hnp],
                    idx, by simp [hall, hnp]⟩
          · rw [if_neg hlt] at h
            cases hlast :
                (if s1.registry.length = cfg.maxAllocators then s1.registry.getLast?
                 else none) with
            | none =>
              simp only [hlast] at h
              subst h
              exact ⟨fun p s' h => AllocResult.noConfusion h,
                     fun s' h => AllocResult.noConfusion h⟩
            | some lastB =>
              simp only [hlast] at h
              by_cases hbs : bank.blockSize < lastB.blockSize
              · rw [if_pos hbs] at h
                rcases ih s1 (bank.blockSize + 1) with ⟨ihok, ihfail⟩
                subst h
                refine ⟨fun p s' hok => ?_, fun s' hf => ?_⟩
                · rcases ihok p s' hok with ⟨hevo2, hp2, hnp2, idx2, hall2⟩
                  exact ⟨regEvo_trans hevo1 hevo2, by rw [hp2, hnp], by rw [hnp2, hnp],
                         idx2, by rw [hall2, hall, hnp]⟩
                · rcases ihfail s' hf with ⟨hevo2, hall2, hnp2⟩
                  exact ⟨regEvo_trans hevo1 hevo2, by rw [hall2, hall], by rw [hnp2, hnp]⟩
              · rw [if_neg hbs] at h
                subst h
                refine ⟨fun p s' h => AllocResult.noConfusion h, fun s' hf => ?_⟩
                injection hf with hf
                subst hf
                exact ⟨hevo1, hall, hnp⟩
    exact hmain (memory_alloc cfg (n + 1) s size) rfl

theorem free_shape {s : MemState} {p : Nat} {s' : MemState}
    (h : memory_free s (some p) = some s') :
    ∃ info, lookupPtr s.allocs p = some info ∧
      s'.registry = decInUse s.registry info.bankIdx ∧
      s'.allocs = removePtr s.allocs p ∧ s'.nextPtr = s.nextPtr := by
  simp only [memory_free] at h
  cases hl : lookupPtr s.allocs p with
  | none =>
    rw [hl] at h
    exact Option.noConfusion h
  | some info =>
    rw [hl] at h
    injection h with h
    subst h
    exact ⟨info, rfl, rfl, rfl, rfl⟩

theorem free_evo {cfg : Config} {s : MemState} {p : Option Nat} {s' : MemState}
    (h : memory_free s p = some s') :
    RegEvo cfg s.registry s'.registry ∧ s'.nextPtr = s.nextPtr := by
  cases p with
  | none =>
    simp only [memory_free] at h
    injection h with h
    subst h
    exact ⟨RegEvo.refl, rfl⟩
  | some q =>
    rcases free_shape h with ⟨info, _, hreg, _, hnp⟩
    rw [hreg, hnp]
    exact ⟨RegEvo.dec _ info.bankIdx RegEvo.refl, rfl⟩

theorem realloc_evo {cfg : Config} {fuel : Nat} {s : MemState} {old : Option Nat}
    {size : Nat} :
    (∀ p s', memory_realloc cfg fuel s old size = .ok p s' →
      RegEvo cfg s.registry s'.registry) ∧
    (∀ s', memory_realloc cfg fuel s old size = .nullRes s' →
      RegEvo cfg s.registry s'.registry) := by
  have hmain : ∀ r, memory_realloc cfg fuel s old size = r →
      (∀ p s', r = .ok p s' → RegEvo cfg s.registry s'.registry) ∧
      (∀ s', r = .nullRes s' → RegEvo cfg s.registry s'.registry) := by
    intro r h
    cases old with
    | none =>
      simp only [memory_realloc] at h
      cases halloc : memory_alloc cfg fuel s size with
      | ok p s1 =>
        simp only [halloc] at h
        subst h
        refine ⟨fun p' s' h => ?_, fun s' h => ReallocResult.noConfusion h⟩
        injection h with h1 h2
        subst h2
        exact ((alloc_evo fuel s size).1 p s1 halloc).1
      | fail s1 =>
        simp only [halloc] at h
        subst h
        refine ⟨fun p' s' h => ReallocResult.noConfusion h, fun s' h => ?_⟩
        injection h with h1
        subst h1
        exact ((alloc_evo fuel s size).2 s1 halloc).1
      | crash =>
        simp only [halloc] at h
        subst h
        exact ⟨fun p' s' h => ReallocResult.noConfusion h,
               fun s' h => ReallocResult.noConfusion h⟩
      | outOfFuel =>
        simp only [halloc] at h
        subst h
        exact ⟨fun p' s' h => ReallocResult.noConfusion h,
               fun s' h => ReallocResult.noConfusion h⟩
    | some op =>
      simp only [memory_realloc] at h
      by_cases hz : size = 0
      · rw [if_pos hz] at h
        cases hfr : memory_free s (some op) with
        | none =>
          simp only [hfr] at h
          subst h
          exact ⟨fun p' s' h => ReallocResult.noConfusion h,
                 fun s' h => ReallocResult.noConfusion h⟩
        | some s1 =>
          simp only [hfr] at h
          subst h
          refine ⟨fun p' s' h => ReallocResult.noConfusion h, fun s' h => ?_⟩
          injection h with h1
          subst h1
          exact (free_evo hfr).1
      · rw [if_neg hz] at h
        cases halloc : memory_alloc cfg fuel s size with
        | outOfFuel =>
          simp only [halloc] at h
          subst h
          exact ⟨fun p' s' h => ReallocResult.noConfusion h,
                 fun s' h => ReallocResult.noConfusion h⟩
        | crash =>
          simp only [halloc] at h
          subst h
          exact ⟨fun p' s' h => ReallocResult.noConfusion h,
                 fun s' h => ReallocResult.noConfusion h⟩
        | fail s1 =>
          simp only [halloc] at h
          subst h
          refine ⟨fun p' s' h => ReallocResult.noConfusion h, fun s' h => ?_⟩
          injection h with h1
          subst h1
          exact ((alloc_evo fuel s size).2 s1 halloc).1
        | ok np s1 =>
          simp only [halloc] at h
          have hevo1 : RegEvo cfg s.registry s1.registry :=
            ((alloc_evo fuel s size).1 np s1 halloc).1
          cases hlo : lookupPtr s1.allocs op with
          | none =>
            cases hln : lookupPtr s1.allocs np with
            | none =>
              simp only [hlo, hln] at h
              subst h
              exact ⟨fun p' s' h => ReallocResult.noConfusion h,
                     fun s' h => ReallocResult.noConfusion h⟩
            | some newInfo =>
              simp only [hlo, hln] at h
              subst h
              exact ⟨fun p' s' h => ReallocResult.noConfusion h,
                     fun s' h => ReallocResult.noConfusion h⟩
          | some oldInfo =>
            cases hln : lookupPtr s1.allocs np with
            | none =>
              simp only [hlo, hln] at h
              subst h
              exact ⟨fun p' s' h => ReallocResult.noConfusion h,
                     fun s' h => ReallocResult.noConfusion h⟩
            | some newInfo =>
              simp only [hlo, hln] at h
              cases hob : s1.registry[oldInfo.bankIdx]? with
              | none =>
                simp only [hob] at h
                subst h
                exact ⟨fun p' s' h => ReallocResult.noConfusion h,
                       fun s' h => ReallocResult.noConfusion h⟩
              | some oldBank =>
                simp only [hob] at h
                cases hfr : memory_free
                    { s1 with
                      allocs := setContent s1.allocs np
                        fun i =>
                          if i <
                              min (((oldBank.blockSize +
                                (2 ^ 32 - required_extra_buffer)) % 2 ^ 32) % 2 ^ 16)
                                size
                          then oldInfo.content i else newInfo.content i }
                    (some op) with
                | none =>
                  simp only [hfr] at h
                  subst h
                  exact ⟨fun p' s' h => ReallocResult.noConfusion h,
                         fun s' h => ReallocResult.noConfusion h⟩
                | some s2 =>
                  simp only [hfr] at h
                  subst h
                  refine ⟨fun p' s' h => ?_, fun s' h => ReallocResult.noConfusion h⟩
                  injection h with h1 h2
                  subst h2
                  have hevo2 : RegEvo cfg _ _ := (free_evo hfr).1
                  exact regEvo_trans hevo1 hevo2
  exact hmain (memory_realloc cfg fuel s old size) rfl

theorem step_evo {cfg : Config} {s s' : MemState} (h : Step cfg s s') :
    RegEvo cfg s.registry s'.registry := by
  cases h with
  | allocOk fuel n p s2 hh => exact ((alloc_evo fuel s n).1 p s' hh).1
  | allocFail fuel n s2 hh => exact ((alloc_evo fuel s n).2 s' hh).1
  | freeOp p s2 hh => exact (free_evo hh).1
  | reallocOk fuel old n p s2 hh => exact realloc_evo.1 p s' hh
  | reallocNull fuel old n s2 hh => exact realloc_evo.2 s' hh

theorem reach_evo {cfg : Config} {init s : MemState} (h : Reach cfg init s) :
    RegEvo cfg init.registry s.registry := by
  induction h with
  | refl => exact RegEvo.refl
  | tail hab hbc ih => exact regEvo_trans ih (step_evo hbc)

theorem alloc_fail_frozen {cfg : Config} (hcap : cfg.pool = true ∨ 0 < cfg.odCapacity) :
    ∀ (fuel : Nat) (s : MemState) (size : Nat) (s' : MemState),
      memory_alloc cfg fuel s size = .fail s' →
      s'.registry = s.registry ∧ s'.allocs = s.allocs ∧ s'.nextPtr = s.nextPtr := by
  intro fuel
  induction fuel with
  | zero =>
    intro s size s' h
    exact AllocResult.noConfusion h
  | succ n ih =>
    intro s size s' h
    simp only [memory_alloc] at h
    cases hga : memory_get_allocator cfg s size with
    | noAlloc s1 =>
      simp only [hga] at h
      injection h with h
      subst h
      exact ga_noAlloc_eq hga
    | found idx s1 =>
      simp only [hga] at h
      rcases ga_found_eq hga with ⟨hall, hnp, hcase⟩
      cases hbank : s1.registry[idx]? with
      | none =>
        simp only [hbank] at h
        exact AllocResult.noConfusion h
      | some bank =>
        simp only [hbank] at h
        by_cases hlt : bank.inUse < bank.capacity
        · rw [if_pos hlt] at h
          exact AllocResult.noConfusion h
        · have hs1 : s1 = s := by
            rcases hcase with hc | ⟨hp, hidx, bsz, habs, hreg, hgb⟩
            · exact hc
            · exfalso
              rw [hbank] at hgb
              injection hgb with hgb
              rcases hcap with hcp | hcp
              · rw [hp] at hcp
                exact Bool.noConfusion hcp
              · apply hlt
                rw [hgb]
                exact hcp
          subst hs1
          rw [if_neg hlt] at h
          cases hlast :
              (if s1.registry.length = cfg.maxAllocators then s1.registry.getLast?
               else none) with
          | none =>
            simp only [hlast] at h
            exact AllocResult.noConfusion h
          | some lastB =>
            simp only [hlast] at h
            by_cases hbs : bank.blockSize < lastB.blockSize
            · rw [if_pos hbs] at h
              exact ih s1 (bank.blockSize + 1) s' h
            · rw [if_neg hbs] at h
              injection h with h
              subst h
              exact ⟨rfl, rfl, rfl⟩

theorem foldl_add_map (f : Bank → Nat) :
    ∀ (l : List Bank) (a : Nat),
      l.foldl (fun acc b => acc + f b) a = a + (l.map f).sum
  | [], a => by simp
  | b :: bs, a => by
    simp only [List.foldl_cons, List.map_cons, List.sum_cons, foldl_add_map f bs]
    omega

theorem usedSum_le_availSum {reg : List Bank} (hwf : WF reg) :
    usedSum reg ≤ availSum reg := by
  rw [usedSum, availSum, foldl_add_map, foldl_add_map]
  simp only [Nat.zero_add]
  apply List.sum_le_sum
  intro b hb
  exact Nat.mul_le_mul_right _ (hwf b hb)

theorem availSum_eq_of_shape {reg reg' : List Bank}
    (h : reg.map bankShape = reg'.map bankShape) : availSum reg = availSum reg' := by
  rw [availSum, availSum, foldl_add_map, foldl_add_map]
  have h2 := congrArg (List.map fun pr : Nat × Nat => pr.2 * pr.1) h
  simp only [List.map_map] at h2
  have e1 : ((fun pr : Nat × Nat => pr.2 * pr.1) ∘ bankShape) =
      fun b : Bank => b.capacity * b.blockSize := rfl
  rw [e1] at h2
  rw [h2]

theorem lookupPtr_removePtr_self (l : List (Nat × PtrInfo)) (p : Nat) :
    lookupPtr (removePtr l p) p = none := by
  induction l with
  | nil => rfl
  | cons e rest ih =>
    rcases e with ⟨q, info⟩
    by_cases hq : q = p
    · have he : removePtr ((q, info) :: rest) p = removePtr rest p := by
        simp [removePtr, List.filter_cons, hq]
      rw [he]
      exact ih
    · have he : removePtr ((q, info) :: rest) p = (q, info) :: removePtr rest p := by
        simp [removePtr, List.filter_cons, hq]
      rw [he]
      simp only [lookupPtr, if_neg hq]
      exact ih

theorem lookupPtr_removePtr_ne {l : List (Nat × PtrInfo)} {p q : Nat} (h : q ≠ p) :
    lookupPtr (removePtr l p) q = lookupPtr l q := by
  induction l with
  | nil => rfl
  | cons e rest ih =>
    rcases e with ⟨x, info⟩
    by_cases hx : x = p
    · have he : removePtr ((x, info) :: rest) p = removePtr rest p := by
        simp [removePtr, List.filter_cons, hx]
      rw [he, ih]
      have hxq : ¬ x = q := by
        intro hc
        exact h (by rw [← hc, hx])
      simp [lookupPtr, hxq]
    · have he : removePtr ((x, info) :: rest) p = (x, info) :: removePtr rest p := by
        simp [removePtr, List.filter_cons, hx]
      rw [he]
      by_cases hxq : x = q
      · simp [lookupPtr, hxq]
      · simp only [lookupPtr, if_neg hxq]
        exact ih

theorem lookupPtr_setContent_self {l : List (Nat × PtrInfo)} {p : Nat} {info : PtrInfo}
    (h : lookupPtr l p = some info) (c : Nat → Nat) :
    lookupPtr (setContent l p c) p = some ⟨info.bankIdx, c⟩ := by
  induction l with
  | nil => exact Option.noConfusion h
  | cons e rest ih =>
    rcases e with ⟨q, qi⟩
    by_cases hq : q = p
    · simp only [lookupPtr, if_pos hq] at h
      injection h with h
      subst h
      simp [setContent, lookupPtr, hq]
    · simp only [lookupPtr, if_neg hq] at h
      simp only [setContent, if_neg hq, lookupPtr]
      exact ih h

theorem lookupPtr_setContent_ne {l : List (Nat × PtrInfo)} {p q : Nat}
    (h : q ≠ p) (c : Nat → Nat) :
    lookupPtr (setContent l p c) q = lookupPtr l q := by
  induction l with
  | nil => rfl
  | cons e rest ih =>
    rcases e with ⟨x, xi⟩
    by_cases hx : x = p
    · subst hx
      have hxq : ¬ x = q := fun hc => h (hc ▸ rfl)
      simp [setContent, lookupPtr, hxq]
    · simp only [setContent, if_neg hx, lookupPtr]
      by_cases hxq : x = q
      · simp [hxq]
      · rw [if_neg hxq, if_neg hxq]
        exact ih

theorem refStep_ctor (st : RefState) :
    refStep st .ctor =
      if st.count = 0 then ⟨st.count + 1, st.inits + 1, st.destroys⟩
      else ⟨st.count + 1, st.inits, st.destroys⟩ := rfl

theorem ctorRun : ∀ (k : Nat) (st : RefState), 1 ≤ st.count →
    List.foldl refStep st (List.replicate k .ctor) =
      ⟨st.count + k, st.inits, st.destroys⟩ := by
  intro k
  induction k with
  | zero =>
    intro st h
    simp
  | succ m ih =>
    intro st h
    have hne : ¬ st.count = 0 := by omega
    rw [List.replicate_succ, List.foldl_cons, refStep_ctor, if_neg hne]
    rw [ih ⟨st.count + 1, st.inits, st.destroys⟩ (by show 1 ≤ st.count + 1; omega)]
    dsimp only
    congr 1
    omega

theorem dtorRun : ∀ (k : Nat) (st : RefState), st.count = k → 1 ≤ k →
    List.foldl refStep st (List.replicate k .dtor) =
      ⟨0, st.inits, st.destroys + 1⟩ := by
  intro k
  induction k with
  | zero =>
    intro st hc h
    omega
  | succ m ih =>
    intro st hc h
    rcases Nat.eq_zero_or_pos m with hm | hm
    · subst hm
      have hz : st.count - 1 = 0 := by omega
      simp only [List.replicate_succ, List.foldl_cons, List.replicate_zero,
        List.foldl_nil, refStep, hz, if_pos]
    · have hnz : ¬ st.count - 1 = 0 := by omega
      simp only [List.replicate_succ, List.foldl_cons, refStep, hnz, if_false]
      rw [ih ⟨st.count - 1, st.inits, st.destroys⟩ (by show st.count - 1 = (m : Int); omega) hm]

/-- C9: initialization fires exactly on constructions performed while the
counter is 0 and teardown exactly on destructions that return the counter to
0; in particular `n` constructions followed by `n` destructions run
`memory_init` once and `memory_destroy` once.  (The claim's stronger "exactly
once across any sequence" fails when the counter returns to 0 and rises
again; see the counterexample.) -/
theorem C9_refcount :
    (∀ st : RefState,
      (refStep st .ctor).inits = st.inits + (if st.count = 0 then 1 else 0) ∧
      (refStep st .ctor).count = st.count + 1 ∧
      (refStep st .ctor).destroys = st.destroys ∧
      (refStep st .dtor).destroys =
        st.destroys + (if st.count - 1 = 0 then 1 else 0) ∧
      (refStep st .dtor).count = st.count - 1 ∧
      (refStep st .dtor).inits = st.inits) ∧
    (∀ n : Nat, 1 ≤ n →
      runOps (List.replicate n .ctor ++ List.replicate n .dtor) = ⟨0, 1, 1⟩) := by
  constructor
  · intro st
    by_cases h : st.count = 0 <;>
      by_cases h2 : st.count - 1 = 0 <;>
        simp [refStep, h, h2]
  · intro n hn
    rw [runOps, List.foldl_append]
    have hrep : List.replicate n InitOp.ctor =
        InitOp.ctor :: List.replicate (n - 1) InitOp.ctor := by
      cases n with
      | zero => omega
      | succ m => simp [List.replicate_succ]
    rw [hrep, List.foldl_cons]
    have h1 : refStep ⟨0, 0, 0⟩ .ctor = ⟨1, 1, 0⟩ := by
      simp [refStep]
    rw [h1, ctorRun (n - 1) ⟨1, 1, 0⟩ (show (1 : Int) ≤ 1 from le_refl 1)]
    dsimp only
    have h2 : (⟨1 + ((n - 1 : Nat) : Int), 1, 0⟩ : RefState) = ⟨(n : Int), 1, 0⟩ := by
      congr 1
      omega
    rw [h2, dtorRun n ⟨(n : Int), 1, 0⟩ rfl hn]

/-- C9 counterexample: over the sequence construct, destroy, construct,
destroy — the counter returns to 0 and rises again — `memory_init` runs
twice and `memory_destroy` runs twice, so "banks are created exactly once by
the first construction" and "teardown happens exactly once" are false as
stated. -/
theorem C9_refcount_cex :
    (runOps [.ctor, .dtor, .ctor, .dtor]).inits = 2 ∧
    (runOps [.ctor, .dtor, .ctor, .dtor]).destroys = 2 ∧ ¬ (2 = 1) := by
  refine ⟨?_, ?_, by omega⟩ <;> rfl

/-- C9 witness: two constructions followed by two destructions create the
banks exactly once and tear down exactly once. -/
theorem C9_refcount_witness :
    runOps (List.replicate 2 .ctor ++ List.replicate 2 .dtor) = ⟨0, 1, 1⟩ :=
  C9_refcount.2 2 (by omega)

/-- C7: with the Registry full (`MAX_ALLOCATORS = 1`, one bank of size 8
created by a first `alloc(1)`), an `alloc(100)` in the on-demand
configuration constructs a transient bank for bucket 128, fails to insert
it, returns null — and never destroys it: the model's `leaked` count of
banks constructed but neither inserted nor deleted becomes 1, the bank
orphaned outside the Registry, where the claim (and spec) require it to be
destroyed before returning. -/
theorem C7_registry_full_leak :
    ∃ s1 s2, memory_alloc ⟨false, 1, 4⟩ 3 onDemandInit 1 = .ok 0 s1 ∧
      s1.leaked = 0 ∧ s1.registry.length = 1 ∧
      memory_alloc ⟨false, 1, 4⟩ 3 s1 100 = .fail s2 ∧
      s2.leaked = 1 ∧ s2.registry.length = 1 := by
  exact ⟨_, _, rfl, rfl, rfl, rfl, rfl, rfl⟩

/-- C6 counterexample: for the client request `n = 2 ^ 31` the total is
`2 ^ 31 + 4`; the next power of two greater than or equal to it is `2 ^ 32`,
but `nextHigher<size_t>`'s result is truncated into the 32-bit `blockSize`,
so the code's bucket is 0 — not a power of two at least the total. -/
theorem C6_bucket_rounding_cex :
    roundNoPool ((2 ^ 31 + required_extra_buffer) % 2 ^ 32) = 0 ∧
    ¬ IsNextPow2 (2 ^ 31 + required_extra_buffer) 0 := by
  constructor
  · rfl
  · rintro ⟨-, hle, -⟩
    omega

/-- C6 (amended): in the on-demand configuration the bucket for request `n`
is computed from `total = n + sizeof(word)`: 396 on `(256, 396]`, 768 on
`(512, 768]`, otherwise the next power of two at least `total` — provided
`total ≤ 2 ^ 31` (for larger totals the truncation into the 32-bit
`blockSize` wraps the bucket, e.g. to 0); and when no bank of the bucket
size exists and the Registry has a free slot, a bank of exactly that size is
constructed and appended. -/
theorem C6_bucket_rounding :
    (∀ n : Nat, n + required_extra_buffer ≤ 2 ^ 31 →
      (256 < n + required_extra_buffer ∧ n + required_extra_buffer ≤ 396 →
        roundNoPool ((n + required_extra_buffer) % 2 ^ 32) = 396) ∧
      (¬ (256 < n + required_extra_buffer ∧ n + required_extra_buffer ≤ 396) →
        512 < n + required_extra_buffer ∧ n + required_extra_buffer ≤ 768 →
        roundNoPool ((n + required_extra_buffer) % 2 ^ 32) = 768) ∧
      (¬ (256 < n + required_extra_buffer ∧ n + required_extra_buffer ≤ 396) →
        ¬ (512 < n + required_extra_buffer ∧ n + required_extra_buffer ≤ 768) →
        IsNextPow2 (n + required_extra_buffer)
          (roundNoPool ((n + required_extra_buffer) % 2 ^ 32)))) ∧
    (∀ (cfg : Config) (s : MemState) (n : Nat), cfg.pool = false →
      find_allocator false s.registry
        (roundNoPool ((n + required_extra_buffer) % 2 ^ 32)) = none →
      s.registry.length < cfg.maxAllocators →
      memory_get_allocator cfg s n = .found s.registry.length
        { s with registry := s.registry ++
            [⟨roundNoPool ((n + required_extra_buffer) % 2 ^ 32),
              cfg.odCapacity, 0⟩] }) := by
  constructor
  · intro n hn
    have hmod : (n + required_extra_buffer) % 2 ^ 32 = n + required_extra_buffer :=
      Nat.mod_eq_of_lt (by
        have : (2 : Nat) ^ 31 < 2 ^ 32 := by norm_num
        omega)
    rw [hmod]
    refine ⟨?_, ?_, ?_⟩
    · intro h1
      rw [roundNoPool, if_pos h1]
    · intro h1 h2
      rw [roundNoPool, if_neg h1, if_pos h2]
    · intro h1 h2
      rw [roundNoPool, if_neg h1, if_neg h2]
      exact isNextPow2_nextHigher (by unfold required_extra_buffer; omega) hn
  · intro cfg s n hp hfind hlen
    simp only [memory_get_allocator, hp, Bool.false_eq_true, if_false, hfind, hlen,
      if_true]

/-- One step of the bootstrap block-size table is strictly increasing, for
all exponents that arise without overflowing the 32-bit `1 << curr_pow`. -/
theorem restrictSize_step :
    ∀ p : Nat, p < 31 → 3 ≤ p →
      restrictSize p (2 ^ p) < restrictSize (p + 1) (2 ^ (p + 1)) := by
  decide

theorem bootBanks_chain (numBlocks count : Nat) (hc : powStart + count ≤ 31) :
    List.Chain' (· < ·) ((bootBanks numBlocks count).map Bank.blockSize) := by
  rw [bootBanks, List.map_map]
  have he : (Bank.blockSize ∘ fun i =>
      (⟨restrictSize (powStart + i) (2 ^ (powStart + i)), numBlocks, 0⟩ : Bank)) =
      fun i => restrictSize (powStart + i) (2 ^ (powStart + i)) := rfl
  rw [he, List.chain'_map]
  cases count with
  | zero => simp
  | succ m =>
    rw [List.chain'_range_succ]
    intro i hi
    have h1 : powStart + i < 31 := by
      unfold powStart at hc ⊢
      omega
    have h2 : 3 ≤ powStart + i := by
      unfold powStart
      omega
    have := restrictSize_step (powStart + i) h1 h2
    have he2 : powStart + (i + 1) = (powStart + i) + 1 := by omega
    rw [he2]
    exact this

/-- C4 (amended): in the pool configurations the Registry never changes
shape after Bootstrap and its block sizes are strictly ascending at all
reachable states; in the on-demand configuration the block sizes are
pairwise distinct at all reachable states, but they appear in insertion
order, which need not be ascending (see the counterexample). -/
theorem C4_registry_order :
    (∀ (maxAllocators numBlocks : Nat) (cfg : Config) (s : MemState),
      cfg.pool = true → powStart + maxAllocators ≤ 31 →
      Reach cfg (poolInit maxAllocators numBlocks) s →
      List.Chain' (· < ·) (s.registry.map Bank.blockSize)) ∧
    (∀ (cfg : Config) (s : MemState),
      Reach cfg onDemandInit s → (s.registry.map Bank.blockSize).Nodup) := by
  constructor
  · intro maxAllocators numBlocks cfg s hp hbound hreach
    have hevo := reach_evo hreach
    have hshape := regEvo_pool_shape hp hevo
    have hbs := map_blockSize_of_map_shape hshape
    rw [hbs]
    exact bootBanks_chain numBlocks maxAllocators hbound
  · intro cfg s hreach
    have hevo := reach_evo hreach
    exact regEvo_nodup hevo (by simp [onDemandInit])

/-- C4 counterexample: in the on-demand configuration, `alloc(100)` then
`alloc(1)` from the empty Registry leaves block sizes `[128, 8]` — reachable
but not ascending, refuting "strictly ascending in every configuration
including on-demand bank creation". -/
theorem C4_registry_order_cex :
    ¬ (∀ (cfg : Config) (s : MemState), Reach cfg onDemandInit s →
        List.Chain' (· < ·) (s.registry.map Bank.blockSize)) := by
  intro hclaim
  have hstep1 : Step ⟨false, 2, 4⟩ onDemandInit c4s1 :=
    Step.allocOk 3 100 0 c4s1 rfl
  have hstep2 : Step ⟨false, 2, 4⟩ c4s1 c4s2 :=
    Step.allocOk 3 1 1 c4s2 rfl
  have hreach : Reach ⟨false, 2, 4⟩ onDemandInit c4s2 :=
    Relation.ReflTransGen.tail (Relation.ReflTransGen.tail
      Relation.ReflTransGen.refl hstep1) hstep2
  have hchain := hclaim _ _ hreach
  rw [show c4s2.registry.map Bank.blockSize = [128, 8] from rfl] at hchain
  rcases hchain with _ | ⟨hlt, _⟩
  omega

/-- C2: in a pool configuration, at every state reachable by
`alloc`/`free`/`realloc` from Bootstrap, `getTotalMemoryUsed` returns
the sum over all banks of `in_use * block_size` and
`getTotalMemoryAvailable` the sum of `capacity * block_size` (the stated
bound keeps the 32-bit accumulator from wrapping); but in the on-demand
configuration the very first query already dereferences a null
`_allocators` slot — the loops lack the null check the claim's reading
assumes — modelled as `none`. -/
theorem C2_stats_sums :
    (∀ (maxAllocators numBlocks : Nat) (cfg : Config) (s : MemState),
      cfg.pool = true → cfg.maxAllocators = maxAllocators →
      availSum (bootBanks numBlocks maxAllocators) < 2 ^ 32 →
      Reach cfg (poolInit maxAllocators numBlocks) s →
      getTotalMemoryUsed cfg s = some (usedSum s.registry) ∧
      getTotalMemoryAvailable cfg s = some (availSum s.registry)) ∧
    getTotalMemoryUsed ⟨false, 8, 1⟩ onDemandInit = none := by
  constructor
  · intro maxAllocators numBlocks cfg s hp hmax hsum hreach
    have hevo := reach_evo hreach
    have hshape := regEvo_pool_shape hp hevo
    have hlen : s.registry.length = maxAllocators := by
      have hl := length_of_map_shape hshape
      rw [hl]
      simp [poolInit, bootBanks]
    have hwf : WF s.registry := by
      apply regEvo_WF hevo
      intro b hb
      rcases List.mem_map.mp hb with ⟨i, hi, hbeq⟩
      rw [← hbeq]
      exact Nat.zero_le _
    have havail : availSum s.registry = availSum (bootBanks numBlocks maxAllocators) :=
      availSum_eq_of_shape hshape
    have hused_le : usedSum s.registry ≤ availSum s.registry := usedSum_le_availSum hwf
    have hcond : s.registry.length = cfg.maxAllocators := by rw [hlen, hmax]
    constructor
    · rw [getTotalMemoryUsed, if_pos hcond, Nat.mod_eq_of_lt (by omega)]
    · rw [getTotalMemoryAvailable, if_pos hcond, Nat.mod_eq_of_lt (by omega)]
  · rfl

/-- C2 witness: in the spec's static-pool configuration the Bootstrap state
itself reports the two sums. -/
theorem C2_stats_sums_witness :
    getTotalMemoryUsed specCfg specInit = some (usedSum specInit.registry) ∧
    getTotalMemoryAvailable specCfg specInit = some (availSum specInit.registry) :=
  C2_stats_sums.1 8 4 specCfg specInit rfl rfl (by decide) Relation.ReflTransGen.refl

theorem filter_length_le {p q : Bank → Bool} (himp : ∀ b, q b = true → p b = true) :
    ∀ l : List Bank, (l.filter q).length ≤ (l.filter p).length := by
  intro l
  induction l with
  | nil => simp
  | cons a rest ih =>
    rw [List.filter_cons, List.filter_cons]
    by_cases hq : q a = true
    · rw [if_pos hq, if_pos (himp a hq)]
      simpa using ih
    · rw [if_neg hq]
      by_cases hp : p a = true
      · rw [if_pos hp]
        exact Nat.le_trans ih (Nat.le_succ _)
      · rw [if_neg hp]
        exact ih

theorem filter_length_lt {p q : Bank → Bool} {l : List Bank} {x : Bank}
    (himp : ∀ b, q b = true → p b = true) (hx : x ∈ l)
    (hpx : p x = true) (hqx : q x = false) :
    (l.filter q).length < (l.filter p).length := by
  induction l with
  | nil => cases hx
  | cons a rest ih =>
    rw [List.filter_cons, List.filter_cons]
    rcases List.mem_cons.mp hx with heq | hmem
    · subst heq
      rw [if_pos hpx, if_neg (by simp [hqx])]
      have := filter_length_le himp rest
      simp only [List.length_cons]
      omega
    · by_cases hq : q a = true
      · rw [if_pos hq, if_pos (himp a hq)]
        simp only [List.length_cons]
        have := ih hmem
        omega
      · rw [if_neg hq]
        by_cases hp : p a = true
        · rw [if_pos hp]
          have := ih hmem
          simp only [List.length_cons]
          omega
        · rw [if_neg hp]
          exact ih hmem

theorem ga_pool_inv {cfg : Config} {s : MemState} {size idx : Nat} {s1 : MemState}
    (hp : cfg.pool = true)
    (h : memory_get_allocator cfg s size = .found idx s1) :
    s1 = s ∧
    find_allocator true s.registry ((size + required_extra_buffer) % 2 ^ 32) =
      some idx := by
  simp only [memory_get_allocator, hp, if_true] at h
  cases hf : find_allocator true s.registry ((size + required_extra_buffer) % 2 ^ 32) with
  | some j =>
    simp only [hf] at h
    injection h with h1 h2
    subst h1
    exact ⟨h2.symm, rfl⟩
  | none =>
    simp only [hf] at h
    exact GetAlloc.noConfusion h

theorem alloc_fuel_sufficient {cfg : Config} (hp : cfg.pool = true) :
    ∀ (fuel : Nat) (s : MemState) (size : Nat),
      (∀ b ∈ s.registry, b.blockSize + 5 < 2 ^ 32) →
      fitCount s.registry ((size + required_extra_buffer) % 2 ^ 32) < fuel →
      memory_alloc cfg fuel s size ≠ .outOfFuel := by
  intro fuel
  induction fuel with
  | zero =>
    intro s size hb hcount
    omega
  | succ n ih =>
    intro s size hb hcount h
    simp only [memory_alloc] at h
    cases hga : memory_get_allocator cfg s size with
    | noAlloc s1 =>
      simp only [hga] at h
      exact AllocResult.noConfusion h
    | found idx s1 =>
      rcases ga_pool_inv hp hga with ⟨hs1, hfind⟩
      subst hs1
      simp only [hga] at h
      rcases find_allocator_some hfind with ⟨bank0, hb0, hfit0⟩
      cases hbank : s1.registry[idx]? with
      | none =>
        simp only [hbank] at h
        exact AllocResult.noConfusion h
      | some bank =>
        simp only [hbank] at h
        rw [hb0] at hbank
        injection hbank with hbankeq
        subst hbankeq
        by_cases hlt : bank0.inUse < bank0.capacity
        · rw [if_pos hlt] at h
          exact AllocResult.noConfusion h
        · rw [if_neg hlt] at h
          cases hlast :
              (if s1.registry.length = cfg.maxAllocators then s1.registry.getLast?
               else none) with
          | none =>
            simp only [hlast] at h
            exact AllocResult.noConfusion h
          | some lastB =>
            simp only [hlast] at h
            by_cases hbs : bank0.blockSize < lastB.blockSize
            · rw [if_pos hbs] at h
              have hfits : ((size + required_extra_buffer) % 2 ^ 32) ≤ bank0.blockSize := by
                have := hfit0
                simp only [bankFits, if_true, decide_eq_true_eq] at this
                exact this
              have hmem : bank0 ∈ s1.registry := List.getElem?_mem hb0
              have hnowrap : bank0.blockSize + 5 < 2 ^ 32 := hb bank0 hmem
              have htot' : (bank0.blockSize + 1 + required_extra_buffer) % 2 ^ 32 =
                  bank0.blockSize + 5 := by
                unfold required_extra_buffer
                rw [Nat.mod_eq_of_lt (by omega)]
              have hdec : fitCount s1.registry
                  ((bank0.blockSize + 1 + required_extra_buffer) % 2 ^ 32) <
                  fitCount s1.registry ((size + required_extra_buffer) % 2 ^ 32) := by
                rw [htot', fitCount, fitCount]
                apply filter_length_lt _ hmem
                · simp only [decide_eq_true_eq]
                  exact hfits
                · simp only [decide_eq_false_iff_not]
                  omega
                · intro b hbq
                  simp only [decide_eq_true_eq] at hbq ⊢
                  omega
              exact ih s1 (bank0.blockSize + 1) hb (by omega) h
            · rw [if_neg hbs] at h
              exact AllocResult.noConfusion h

/-- C10 (amended): in the pool configurations the spill-up recursion of
`__memory_alloc` terminates for every request, with depth bounded by the
number of Registry banks — fuel exceeding that number is never exhausted,
since each recursive call requests `block_size + 1` and so strictly
shrinks the set of banks that can serve the request.  The claim is not
universal, however: in the on-demand configuration, whenever the lookup
routes the request to an existing exhausted bank while the Registry is not
full, the exhaustion path does not recurse at all — it dereferences the
null `_allocators[MAX_ALLOCATORS - 1]` slot, undefined behavior modelled
as `.crash` (see the counterexample). -/
theorem C10_spill_terminates :
    (∀ (cfg : Config) (s : MemState) (size : Nat),
      cfg.pool = true →
      (∀ b ∈ s.registry, b.blockSize + 5 < 2 ^ 32) →
      memory_alloc cfg (s.registry.length + 1) s size ≠ .outOfFuel) ∧
    (∀ (cfg : Config) (s : MemState) (fuel size idx : Nat) (bank : Bank),
      memory_get_allocator cfg s size = .found idx s →
      s.registry[idx]? = some bank →
      ¬ bank.inUse < bank.capacity →
      ¬ s.registry.length = cfg.maxAllocators →
      memory_alloc cfg (fuel + 1) s size = .crash) := by
  constructor
  · intro cfg s size hp hb
    apply alloc_fuel_sufficient hp _ s size hb
    have hle : fitCount s.registry ((size + required_extra_buffer) % 2 ^ 32) ≤
        s.registry.length := by
      rw [fitCount]
      exact List.length_filter_le _ _
    omega
  · intro cfg s fuel size idx bank hga hbank hlt hlen
    simp only [memory_alloc, hga, hbank, if_neg hlt, if_neg hlen]

/-- C10 witness: in the spec's static-pool configuration, fuel 9 (one more
than the 8 banks) suffices for `alloc(12)` at the Bootstrap state; and at
the on-demand state `c10od4` (one exhausted 8-byte bank, Registry not
full) `alloc(1)` hits the null-slot dereference. -/
theorem C10_spill_terminates_witness :
    memory_alloc specCfg (specInit.registry.length + 1) specInit 12 ≠ .outOfFuel ∧
    memory_alloc ⟨false, 2, 4⟩ 3 c10od4 1 = .crash :=
  ⟨C10_spill_terminates.1 specCfg specInit 12 rfl (by decide),
   C10_spill_terminates.2 ⟨false, 2, 4⟩ c10od4 2 1 0 ⟨8, 4, 4⟩ rfl (by decide)
     (by decide) (by decide)⟩

/-- C10 counterexample: in the on-demand configuration with
`MAX_ALLOCATORS = 2`, four `alloc(1)` calls reach a Registry holding only
an exhausted 8-byte bank (length 1 of 2, so `_allocators[1]` is null); the
next `alloc(1)` is routed to that exhausted bank and, instead of the
claimed bounded recursion, dereferences the null last slot — undefined
behavior, modelled `.crash` — so the spill-up path does not terminate
normally for every input. -/
theorem C10_spill_terminates_cex :
    Reach ⟨false, 2, 4⟩ onDemandInit c10od4 ∧
    c10od4.registry.length < (⟨false, 2, 4⟩ : Config).maxAllocators ∧
    memory_get_allocator ⟨false, 2, 4⟩ c10od4 1 = .found 0 c10od4 ∧
    c10od4.registry[0]? = some ⟨8, 4, 4⟩ ∧
    (⟨8, 4, 4⟩ : Bank).inUse = (⟨8, 4, 4⟩ : Bank).capacity ∧
    memory_alloc ⟨false, 2, 4⟩ 5 c10od4 1 = .crash := by
  refine ⟨?_, by decide, rfl, rfl, rfl, rfl⟩
  have h1 : Step ⟨false, 2, 4⟩ onDemandInit c10od1 := Step.allocOk 3 1 0 c10od1 rfl
  have h2 : Step ⟨false, 2, 4⟩ c10od1 c10od2 := Step.allocOk 3 1 1 c10od2 rfl
  have h3 : Step ⟨false, 2, 4⟩ c10od2 c10od3 := Step.allocOk 3 1 2 c10od3 rfl
  have h4 : Step ⟨false, 2, 4⟩ c10od3 c10od4 := Step.allocOk 3 1 3 c10od4 rfl
  exact Relation.ReflTransGen.tail (Relation.ReflTransGen.tail
    (Relation.ReflTransGen.tail (Relation.ReflTransGen.tail
      Relation.ReflTransGen.refl h1) h2) h3) h4

/-- C5: every `alloc` that returns null, and every `realloc` with a
positive size (or null old pointer) that returns null, leaves the bank
registry, the set of live allocations, and the pointer counter exactly as
they were: failed calls have no observable side effects.  (`realloc(p, 0)`
returns null by design after freeing, which is not a failure.) -/
theorem C5_failure_no_side_effects :
    (∀ (cfg : Config) (fuel : Nat) (s : MemState) (size : Nat) (s' : MemState),
      cfg.pool = true ∨ 0 < cfg.odCapacity →
      memory_alloc cfg fuel s size = .fail s' →
      s'.registry = s.registry ∧ s'.allocs = s.allocs ∧ s'.nextPtr = s.nextPtr) ∧
    (∀ (cfg : Config) (fuel : Nat) (s : MemState) (old : Option Nat) (size : Nat)
        (s' : MemState),
      cfg.pool = true ∨ 0 < cfg.odCapacity →
      0 < size ∨ old = none →
      memory_realloc cfg fuel s old size = .nullRes s' →
      s'.registry = s.registry ∧ s'.allocs = s.allocs ∧ s'.nextPtr = s.nextPtr) := by
  constructor
  · intro cfg fuel s size s' hcap h
    exact alloc_fail_frozen hcap fuel s size s' h
  · intro cfg fuel s old size s' hcap hside h
    cases old with
    | none =>
      simp only [memory_realloc] at h
      cases halloc : memory_alloc cfg fuel s size with
      | ok p s1 =>
        simp only [halloc] at h
        exact ReallocResult.noConfusion h
      | fail s1 =>
        simp only [halloc] at h
        injection h with h
        subst h
        exact alloc_fail_frozen hcap fuel s size s1 halloc
      | crash =>
        simp only [halloc] at h
        exact ReallocResult.noConfusion h
      | outOfFuel =>
        simp only [halloc] at h
        exact ReallocResult.noConfusion h
    | some op =>
      have hsz : ¬ size = 0 := by
        rcases hside with h1 | h1
        · omega
        · exact Option.noConfusion h1
      simp only [memory_realloc, if_neg hsz] at h
      cases halloc : memory_alloc cfg fuel s size with
      | outOfFuel =>
        simp only [halloc] at h
        exact ReallocResult.noConfusion h
      | crash =>
        simp only [halloc] at h
        exact ReallocResult.noConfusion h
      | fail s1 =>
        simp only [halloc] at h
        injection h with h
        subst h
        exact alloc_fail_frozen hcap fuel s size s1 halloc
      | ok np s1 =>
        simp only [halloc] at h
        cases hlo : lookupPtr s1.allocs op with
        | none =>
          cases hln : lookupPtr s1.allocs np with
          | none =>
            simp only [hlo, hln] at h
            exact ReallocResult.noConfusion h
          | some newInfo =>
            simp only [hlo, hln] at h
            exact ReallocResult.noConfusion h
        | some oldInfo =>
          cases hln : lookupPtr s1.allocs np with
          | none =>
            simp only [hlo, hln] at h
            exact ReallocResult.noConfusion h
          | some newInfo =>
            simp only [hlo, hln] at h
            cases hob : s1.registry[oldInfo.bankIdx]? with
            | none =>
              simp only [hob] at h
              exact ReallocResult.noConfusion h
            | some oldBank =>
              simp only [hob] at h
              cases hfr : memory_free
                  { s1 with
                    allocs := setContent s1.allocs np
                      fun i =>
                        if i <
                            min (((oldBank.blockSize +
                              (2 ^ 32 - required_extra_buffer)) % 2 ^ 32) % 2 ^ 16)
                              size
                        then oldInfo.content i else newInfo.content i }
                  (some op) with
              | none =>
                simp only [hfr] at h
                exact ReallocResult.noConfusion h
              | some s2 =>
                simp only [hfr] at h
                exact ReallocResult.noConfusion h

/-- C5 witness: in the spec's static-pool configuration, `alloc(100000)`
(no bucket fits) and `realloc(5, 100000)` both fail and leave the Bootstrap
state untouched. -/
theorem C5_failure_no_side_effects_witness :
    (specInit.registry = specInit.registry ∧ specInit.allocs = specInit.allocs ∧
      specInit.nextPtr = specInit.nextPtr) ∧
    (specInit.registry = specInit.registry ∧ specInit.allocs = specInit.allocs ∧
      specInit.nextPtr = specInit.nextPtr) :=
  ⟨C5_failure_no_side_effects.1 specCfg 9 specInit 100000 specInit (Or.inl rfl) rfl,
   C5_failure_no_side_effects.2 specCfg 9 specInit (some 5) 100000 specInit
     (Or.inl rfl) (Or.inl (by omega)) rfl⟩

/-- C8 (amended): `alloc(0)` is routed to the first bank of the pool
Registry (the smallest bucket) and returns a valid non-null pointer from it
whenever that bank has a free block; when the smallest bank is exhausted the
request spills up like any other (see the counterexample). -/
theorem C8_zero_alloc :
    ∀ (cfg : Config) (s : MemState) (b : Bank) (rest : List Bank) (fuel : Nat),
      cfg.pool = true → s.registry = b :: rest →
      required_extra_buffer ≤ b.blockSize → b.inUse < b.capacity →
      memory_alloc cfg (fuel + 1) s 0 =
        .ok s.nextPtr
          { s with registry := incInUse s.registry 0,
                   allocs := (s.nextPtr, ⟨0, fun _ => 0⟩) :: s.allocs,
                   nextPtr := s.nextPtr + 1 } := by
  intro cfg s b rest fuel hp hreg hb4 hlt
  have hfind : find_allocator true s.registry
      ((0 + required_extra_buffer) % 2 ^ 32) = some 0 := by
    rw [hreg]
    simp only [find_allocator]
    rw [if_pos ?hfit]
    case hfit =>
      simp only [bankFits, if_true, decide_eq_true_eq]
      show (0 + required_extra_buffer) % 2 ^ 32 ≤ b.blockSize
      have : (0 + required_extra_buffer) % 2 ^ 32 = required_extra_buffer := rfl
      rw [this]
      exact hb4
  have hga : memory_get_allocator cfg s 0 = .found 0 s := by
    simp only [memory_get_allocator, hp, if_true, hfind]
  have hb0 : s.registry[0]? = some b := by
    rw [hreg]
    simp
  simp only [memory_alloc, hga, hb0, if_pos hlt]

/-- C8 witness: at the Bootstrap state of the spec's static-pool
configuration, `alloc(0)` returns pointer 0 backed by the smallest (8-byte)
bank. -/
theorem C8_zero_alloc_witness :
    memory_alloc specCfg 9 specInit 0 =
      .ok specInit.nextPtr
        { specInit with registry := incInUse specInit.registry 0,
                        allocs := (specInit.nextPtr, ⟨0, fun _ => 0⟩) :: specInit.allocs,
                        nextPtr := specInit.nextPtr + 1 } :=
  C8_zero_alloc specCfg specInit ⟨8, 4, 0⟩ _ 8 rfl rfl (by decide) (by decide)

/-- C8 counterexample: after four `alloc(1)` calls exhaust the smallest
(8-byte) bank, a further `alloc(0)` still returns a valid non-null pointer
— but from the 16-byte bank, not the smallest bucket, although the Registry
is nonempty; "alloc(0) returns a pointer into the smallest bucket unless
the Registry is empty" is false as stated. -/
theorem C8_zero_alloc_cex :
    ∃ p s5, Reach specCfg specInit c8s4 ∧ specInit.registry ≠ [] ∧
      memory_alloc specCfg 9 c8s4 0 = .ok p s5 ∧
      (lookupPtr s5.allocs p).map PtrInfo.bankIdx = some 1 ∧
      (s5.registry[1]?).map Bank.blockSize = some 16 ∧
      (s5.registry[0]?).map Bank.blockSize = some 8 := by
  refine ⟨4, _, ?_, by decide, rfl, rfl, rfl, rfl⟩
  have h1 : Step specCfg specInit c8s1 := Step.allocOk 9 1 0 c8s1 rfl
  have h2 : Step specCfg c8s1 c8s2 := Step.allocOk 9 1 1 c8s2 rfl
  have h3 : Step specCfg c8s2 c8s3 := Step.allocOk 9 1 2 c8s3 rfl
  have h4 : Step specCfg c8s3 c8s4 := Step.allocOk 9 1 3 c8s4 rfl
  exact Relation.ReflTransGen.tail (Relation.ReflTransGen.tail
    (Relation.ReflTransGen.tail (Relation.ReflTransGen.tail
      Relation.ReflTransGen.refl h1) h2) h3) h4

/-- C1 (amended): when `alloc`'s bucket lookup resolves to an existing
exhausted bank, the code compares that bank's block size against the bank
in the **last** `_allocators` slot, not against the largest bank: strictly
smaller means a recursive retry with client request `block_size() + 1`,
otherwise null — and when the Registry is not full that comparison
dereferences a null slot (undefined behavior, modelled `.crash`).  In the
pool configurations the array is full and ascending, so the last slot is
the largest bank and the originally claimed behavior holds, including
spec scenario S3 in the static-pool configuration: four `alloc(12)` calls
exhaust the 16-byte bank and a 5th `alloc(12)` succeeds from the 32-byte
bank, growing `total_used()` from 64 to 96, by 32.  In the on-demand
configuration the last slot need not be the largest bank, so an exhausted
non-largest bank can yield null with no retry (see the counterexample). -/
theorem C1_spill_up :
    (∀ (cfg : Config) (s : MemState) (fuel size idx : Nat) (bank lastB : Bank),
      memory_get_allocator cfg s size = .found idx s →
      s.registry[idx]? = some bank →
      ¬ bank.inUse < bank.capacity →
      s.registry.length = cfg.maxAllocators →
      s.registry.getLast? = some lastB →
      bank.blockSize < lastB.blockSize →
      memory_alloc cfg (fuel + 1) s size =
        memory_alloc cfg fuel s (bank.blockSize + 1)) ∧
    (∀ (cfg : Config) (s : MemState) (fuel size idx : Nat) (bank lastB : Bank),
      memory_get_allocator cfg s size = .found idx s →
      s.registry[idx]? = some bank →
      ¬ bank.inUse < bank.capacity →
      s.registry.length = cfg.maxAllocators →
      s.registry.getLast? = some lastB →
      ¬ bank.blockSize < lastB.blockSize →
      memory_alloc cfg (fuel + 1) s size = .fail s) ∧
    (∀ (cfg : Config) (s : MemState) (fuel size idx : Nat) (bank : Bank),
      memory_get_allocator cfg s size = .found idx s →
      s.registry[idx]? = some bank →
      ¬ bank.inUse < bank.capacity →
      ¬ s.registry.length = cfg.maxAllocators →
      memory_alloc cfg (fuel + 1) s size = .crash) ∧
    (∃ s1 s2 s3 s4 s5,
      memory_alloc specCfg 9 specInit 12 = .ok 0 s1 ∧
      memory_alloc specCfg 9 s1 12 = .ok 1 s2 ∧
      memory_alloc specCfg 9 s2 12 = .ok 2 s3 ∧
      memory_alloc specCfg 9 s3 12 = .ok 3 s4 ∧
      getTotalMemoryUsed specCfg s4 = some 64 ∧
      memory_alloc specCfg 9 s4 12 = .ok 4 s5 ∧
      (lookupPtr s5.allocs 4).map PtrInfo.bankIdx = some 2 ∧
      (s5.registry[2]?).map Bank.blockSize = some 32 ∧
      getTotalMemoryUsed specCfg s5 = some 96) := by
  refine ⟨?_, ?_, ?_, ?_⟩
  · intro cfg s fuel size idx bank lastB hga hbank hlt hlen hlast hbs
    simp only [memory_alloc, hga, hbank, if_neg hlt, if_pos hlen, hlast, if_pos hbs]
  · intro cfg s fuel size idx bank lastB hga hbank hlt hlen hlast hbs
    simp only [memory_alloc, hga, hbank, if_neg hlt, if_pos hlen, hlast, if_neg hbs]
  · intro cfg s fuel size idx bank hga hbank hlt hlen
    simp only [memory_alloc, hga, hbank, if_neg hlt, if_neg hlen]
  · exact ⟨_, _, _, _, _, rfl, rfl, rfl, rfl, rfl, rfl, rfl, rfl, rfl⟩

/-- C1 witness: with the 16-byte bank exhausted, `alloc(12)` equals a retry
with request 17; with the last-slot bank exhausted, `alloc(396)` returns
null; with an exhausted bank in a non-full on-demand Registry, `alloc(1)`
hits the null-slot dereference. -/
theorem C1_spill_up_witness :
    memory_alloc specCfg 6 c1ExhState 12 = memory_alloc specCfg 5 c1ExhState 17 ∧
    memory_alloc specCfg 6 c1TopState 396 = .fail c1TopState ∧
    memory_alloc ⟨false, 2, 4⟩ 3 c1NotFullState 1 = .crash :=
  ⟨C1_spill_up.1 specCfg c1ExhState 5 12 1 ⟨16, 4, 4⟩ ⟨400, 4, 0⟩ rfl
      (by decide) (by decide) (by decide) (by decide) (by decide),
   C1_spill_up.2.1 specCfg c1TopState 5 396 7 ⟨400, 4, 4⟩ ⟨400, 4, 4⟩ rfl
      (by decide) (by decide) (by decide) (by decide) (by decide),
   C1_spill_up.2.2.1 ⟨false, 2, 4⟩ c1NotFullState 2 1 0 ⟨8, 4, 4⟩ rfl
      (by decide) (by decide) (by decide)⟩

/-- C1 counterexample: in the on-demand configuration, `alloc(100)` then
four `alloc(1)` calls reach Registry block sizes `[128, 8]` with the
8-byte bank exhausted; that bank is not the largest in the Registry (the
128-byte bank is larger and still has free blocks), yet a further
`alloc(1)` returns null without any retry — the code compared against the
last slot, not the largest bank — refuting the claim as stated. -/
theorem C1_spill_up_cex :
    Reach ⟨false, 2, 4⟩ onDemandInit c1od5 ∧
    c1od5.registry.map Bank.blockSize = [128, 8] ∧
    memory_get_allocator ⟨false, 2, 4⟩ c1od5 1 = .found 1 c1od5 ∧
    c1od5.registry[1]? = some ⟨8, 4, 4⟩ ∧
    (⟨8, 4, 4⟩ : Bank).inUse = (⟨8, 4, 4⟩ : Bank).capacity ∧
    c1od5.registry[0]? = some ⟨128, 4, 1⟩ ∧
    (8 : Nat) < 128 ∧ (1 : Nat) < 4 ∧
    memory_alloc ⟨false, 2, 4⟩ 5 c1od5 1 = .fail c1od5 := by
  refine ⟨?_, rfl, rfl, rfl, rfl, rfl, by decide, by decide, rfl⟩
  have h1 : Step ⟨false, 2, 4⟩ onDemandInit c1od1 := Step.allocOk 3 100 0 c1od1 rfl
  have h2 : Step ⟨false, 2, 4⟩ c1od1 c1od2 := Step.allocOk 3 1 1 c1od2 rfl
  have h3 : Step ⟨false, 2, 4⟩ c1od2 c1od3 := Step.allocOk 3 1 2 c1od3 rfl
  have h4 : Step ⟨false, 2, 4⟩ c1od3 c1od4 := Step.allocOk 3 1 3 c1od4 rfl
  have h5 : Step ⟨false, 2, 4⟩ c1od4 c1od5 := Step.allocOk 3 1 4 c1od5 rfl
  exact Relation.ReflTransGen.tail (Relation.ReflTransGen.tail
    (Relation.ReflTransGen.tail (Relation.ReflTransGen.tail
      (Relation.ReflTransGen.tail Relation.ReflTransGen.refl h1) h2) h3) h4) h5

theorem realloc_ok_compute {cfg : Config} {fuel : Nat} {s : MemState}
    {p size np : Nat} {s' : MemState} {oldInfo newInfo : PtrInfo} {oldBank : Bank}
    (hsz : ¬ size = 0)
    (halloc : memory_alloc cfg fuel s size = .ok np s')
    (hlo : lookupPtr s'.allocs p = some oldInfo)
    (hln : lookupPtr s'.allocs np = some newInfo)
    (hob : s'.registry[oldInfo.bankIdx]? = some oldBank)
    (hne : p ≠ np) :
    memory_realloc cfg fuel s (some p) size = .ok np
      { s' with
        registry := decInUse s'.registry oldInfo.bankIdx,
        allocs := removePtr (setContent s'.allocs np fun i =>
          if i < min (((oldBank.blockSize + (2 ^ 32 - required_extra_buffer))
              % 2 ^ 32) % 2 ^ 16) size
          then oldInfo.content i else newInfo.content i) p } := by
  have hfr : memory_free
      { s' with allocs := setContent s'.allocs np fun i =>
          if i < min (((oldBank.blockSize + (2 ^ 32 - required_extra_buffer))
              % 2 ^ 32) % 2 ^ 16) size
          then oldInfo.content i else newInfo.content i } (some p) =
      some { s' with
        registry := decInUse s'.registry oldInfo.bankIdx,
        allocs := removePtr (setContent s'.allocs np fun i =>
          if i < min (((oldBank.blockSize + (2 ^ 32 - required_extra_buffer))
              % 2 ^ 32) % 2 ^ 16) size
          then oldInfo.content i else newInfo.content i) p } := by
    simp only [memory_free, lookupPtr_setContent_ne hne, hlo]
  simp only [memory_realloc, if_neg hsz, halloc, hlo, hln, hob]
  show (match memory_free
      { s' with allocs := setContent s'.allocs np fun i =>
          if i < min (((oldBank.blockSize + (2 ^ 32 - required_extra_buffer))
              % 2 ^ 32) % 2 ^ 16) size
          then oldInfo.content i else newInfo.content i } (some p) with
    | none => ReallocResult.crash
    | some s3 => ReallocResult.ok np s3) = _
  rw [hfr]

/-- C3 (amended): `realloc(null, n)` behaves exactly as `alloc(n)`;
`realloc(old, 0)` frees `old` and returns null; for `n > 0`, if the inner
`alloc(n)` fails, `realloc` returns null with the allocation table — hence
the old block — untouched; and on success it copies
`min((old_bank.block_size − sizeof(word)) mod 2 ^ 16, n)` bytes from the
old block to the new (the length truncates into the 16-bit `size_type`;
pool-mode block sizes are small enough that the truncation never bites),
frees the old pointer, and returns the new one. -/
theorem C3_realloc_semantics :
    (∀ (cfg : Config) (fuel : Nat) (s : MemState) (size : Nat),
      memory_realloc cfg fuel s none size =
        (match memory_alloc cfg fuel s size with
          | .ok p s' => ReallocResult.ok p s'
          | .fail s' => ReallocResult.nullRes s'
          | .crash => ReallocResult.crash
          | .outOfFuel => ReallocResult.outOfFuel)) ∧
    (∀ (cfg : Config) (fuel : Nat) (s : MemState) (p : Nat) (s' : MemState),
      memory_free s (some p) = some s' →
      memory_realloc cfg fuel s (some p) 0 = .nullRes s') ∧
    (∀ (cfg : Config) (fuel : Nat) (s : MemState) (p size : Nat) (s' : MemState),
      0 < size → memory_alloc cfg fuel s size = .fail s' →
      memory_realloc cfg fuel s (some p) size = .nullRes s' ∧
      s'.allocs = s.allocs) ∧
    (∀ (cfg : Config) (fuel : Nat) (s : MemState) (p size np : Nat)
        (s' : MemState) (oldInfo : PtrInfo) (oldBank : Bank),
      0 < size →
      memory_alloc cfg fuel s size = .ok np s' →
      lookupPtr s.allocs p = some oldInfo →
      p ≠ np →
      s'.registry[oldInfo.bankIdx]? = some oldBank →
      ∃ s3, memory_realloc cfg fuel s (some p) size = .ok np s3 ∧
        lookupPtr s3.allocs p = none ∧
        ∀ i, i < min (((oldBank.blockSize + (2 ^ 32 - required_extra_buffer))
            % 2 ^ 32) % 2 ^ 16) size →
          contentAt s3 np i = some (oldInfo.content i)) := by
  refine ⟨?_, ?_, ?_, ?_⟩
  · intro cfg fuel s size
    cases halloc : memory_alloc cfg fuel s size <;>
      simp only [memory_realloc, halloc]
  · intro cfg fuel s p s' h
    simp only [memory_realloc]
    rw [if_pos trivial, h]
  · intro cfg fuel s p size s' hsz halloc
    have hsz' : ¬ size = 0 := by omega
    constructor
    · simp only [memory_realloc, if_neg hsz', halloc]
    · exact ((alloc_evo fuel s size).2 s' halloc).2.1
  · intro cfg fuel s p size np s' oldInfo oldBank hsz halloc hlook hne hob
    rcases (alloc_evo fuel s size).1 np s' halloc with ⟨-, hnpv, -, idx1, hallocs⟩
    have hnps : ¬ s.nextPtr = p := fun hc => hne (by rw [hnpv, hc])
    have hlo : lookupPtr s'.allocs p = some oldInfo := by
      rw [hallocs]
      simp only [lookupPtr, if_neg hnps]
      exact hlook
    have hln : lookupPtr s'.allocs np = some ⟨idx1, fun _ => 0⟩ := by
      rw [hallocs, hnpv]
      simp [lookupPtr]
    have hsz' : ¬ size = 0 := by omega
    refine ⟨_, realloc_ok_compute hsz' halloc hlo hln hob hne, ?_, ?_⟩
    · exact lookupPtr_removePtr_self _ _
    · intro i hi
      rw [contentAt]
      have hstep1 : lookupPtr (removePtr (setContent s'.allocs np fun j =>
          if j < min (((oldBank.blockSize + (2 ^ 32 - required_extra_buffer))
              % 2 ^ 32) % 2 ^ 16) size
          then oldInfo.content j else PtrInfo.content ⟨idx1, fun _ => 0⟩ j) p) np =
          lookupPtr (setContent s'.allocs np fun j =>
          if j < min (((oldBank.blockSize + (2 ^ 32 - required_extra_buffer))
              % 2 ^ 32) % 2 ^ 16) size
          then oldInfo.content j else PtrInfo.content ⟨idx1, fun _ => 0⟩ j) np :=
        lookupPtr_removePtr_ne (fun hc => hne hc.symm)
      rw [hstep1, lookupPtr_setContent_self hln]
      simp only [Option.map_some', if_pos hi]

/-- C3 witness: `realloc` of the live 10-byte allocation to 100 bytes
returns the new pointer with the old block freed and its bytes copied. -/
theorem C3_realloc_semantics_witness :
    ∃ s3, memory_realloc specCfg 9 c3w1 (some 0) 100 = .ok 1 s3 ∧
      lookupPtr s3.allocs 0 = none ∧
      ∀ i, i < min ((((16 : Nat) + (2 ^ 32 - required_extra_buffer))
          % 2 ^ 32) % 2 ^ 16) 100 →
        contentAt s3 1 i = some ((fun _ => (0 : Nat)) i) :=
  C3_realloc_semantics.2.2.2 specCfg 9 c3w1 0 100 1 c3w2 ⟨1, fun _ => 0⟩
    ⟨16, 4, 1⟩ (by omega) rfl rfl (by omega) rfl

/-- C3 counterexample: in the on-demand configuration a bank of block size
`2 ^ 17 = 131072` serves `alloc(131068)`.  The old block's byte at offset
70000 is set to 7; `realloc(old, 100000)` should copy
`min(131072 − 4, 100000) = 100000` bytes per the claim, hence preserve that
byte — but `size_type` is 16-bit, the length truncates to
`131068 mod 2 ^ 16 = 65532`, and the byte at offset 70000 of the new block
is the fresh block's 0, not 7. -/
theorem C3_realloc_semantics_cex :
    ∃ s1 s2 s5,
      memory_alloc ⟨false, 2, 4⟩ 5 onDemandInit 131068 = .ok 0 s1 ∧
      memory_write s1 0 70000 7 = some s2 ∧
      contentAt s2 0 70000 = some 7 ∧
      (s2.registry[0]?).map Bank.blockSize = some 131072 ∧
      (lookupPtr s2.allocs 0).map PtrInfo.bankIdx = some 0 ∧
      memory_realloc ⟨false, 2, 4⟩ 5 s2 (some 0) 100000 = .ok 1 s5 ∧
      70000 < min (131072 - required_extra_buffer) 100000 ∧
      contentAt s5 1 70000 = some 0 ∧ ¬ (0 = 7) := by
  refine ⟨_, _, _, rfl, rfl, rfl, rfl, rfl, rfl, by decide, rfl, by omega⟩

/-- C4 witness: the spec's static-pool Bootstrap Registry is strictly
ascending, and the empty on-demand Registry is duplicate-free. -/
theorem C4_registry_order_witness :
    List.Chain' (· < ·) (specInit.registry.map Bank.blockSize) ∧
    (onDemandInit.registry.map Bank.blockSize).Nodup :=
  ⟨C4_registry_order.1 8 4 specCfg specInit rfl (by decide)
      Relation.ReflTransGen.refl,
   C4_registry_order.2 specCfg onDemandInit Relation.ReflTransGen.refl⟩

/-- C6 witness: request 300 rounds to the 396 override, request 600 to the
768 override, request 12 to the next power of two, and a missing 16-byte
bucket is constructed and inserted into the empty Registry. -/
theorem C6_bucket_rounding_witness :
    roundNoPool ((300 + required_extra_buffer) % 2 ^ 32) = 396 ∧
    roundNoPool ((600 + required_extra_buffer) % 2 ^ 32) = 768 ∧
    IsNextPow2 (12 + required_extra_buffer)
      (roundNoPool ((12 + required_extra_buffer) % 2 ^ 32)) ∧
    memory_get_allocator ⟨false, 2, 4⟩ onDemandInit 12 =
      .found onDemandInit.registry.length
        { onDemandInit with registry := onDemandInit.registry ++
            [⟨roundNoPool ((12 + required_extra_buffer) % 2 ^ 32),
              (⟨false, 2, 4⟩ : Config).odCapacity, 0⟩] } :=
  ⟨(C6_bucket_rounding.1 300 (by decide)).1 (by decide),
   (C6_bucket_rounding.1 600 (by decide)).2.1 (by decide) (by decide),
   (C6_bucket_rounding.1 12 (by decide)).2.2 (by decide) (by decide),
   C6_bucket_rounding.2 ⟨false, 2, 4⟩ onDemandInit 12 rfl rfl (by decide)⟩

end WlibMemory
